import Mathlib

/-!
Verification of the MoserGamma placement engine (`src/algorithm/gamma_algorithm.py`
and `src/detail/detail.py`) against its natural-language specification.

The Python code works on floating-point coordinates; the shallow embedding uses
exact rationals (`ℚ`), matching the description in the spec of the arithmetic as exact
corner arithmetic.  The only transcendental quantity, the required gap
`(1 / i) ** gamma`, is abstracted into an explicit parameter `gap : ℕ → ℚ`
passed to every step function: the code always applies the power function to a
concrete integer index, and every claim is about which index feeds the formula
and how the resulting value is compared, never about the power function itself.
Concrete instantiations use `fun i => 1 / i`, which is exactly `(1 / i) ** gamma`
for `gamma = 1 > 0`.

The externally owned `placed_details` list is threaded explicitly.  The Python
`list.remove` method removes the first matching element and the engine only ever
removes objects it has itself put in the list, so it is modelled by
`List.erase`.  Python statistic listeners are purely observational (they are
notified but never consulted), so the event emission calls are not modelled.
-/

namespace MoserGamma

unseal Rat.sub in
/-- Embeds `detail.detail.Detail`: an axis-aligned rectangle given by its
bottom-left and top-right corners, a name and a type tag. -/
structure Detail where
  bottom_left : ℚ × ℚ
  top_right : ℚ × ℚ
  name : String
  detail_type : String
deriving DecidableEq

namespace Detail

/-- Embeds `Detail.width`: `top_right[0] - bottom_left[0]`. -/
def width (d : Detail) : ℚ := d.top_right.1 - d.bottom_left.1

/-- Embeds `Detail.height`: `top_right[1] - bottom_left[1]`. -/
def height (d : Detail) : ℚ := d.top_right.2 - d.bottom_left.2

/-- Signed area of a detail, `width * height`. -/
def area (d : Detail) : ℚ := d.width * d.height

/-- Computes `min(width, height)`, the sort key of the box pool. -/
def minSide (d : Detail) : ℚ := min d.width d.height

end Detail

/-- Source constant `DETAIL_PREFIX` (renamed). -/
def DETAIL_PFX : String := "S"

/-- Source constant `DETAIL_NAME`. -/
def DETAIL_NAME : String := "detail"

/-- Source constant `NORMAL_BOX_PREFIX` (renamed). -/
def NORMAL_BOX_PFX : String := "B"

/-- Source constant `NORMAL_BOX_TYPE_1_NAME`. -/
def NORMAL_BOX_TYPE_1_NAME : String := "normal_box_1"

/-- Source constant `NORMAL_BOX_TYPE_2_NAME`. -/
def NORMAL_BOX_TYPE_2_NAME : String := "normal_box_2"

/-- Source constant `ENDPOINT_PREFIX` (renamed). -/
def ENDPOINT_PFX : String := "Ep"

/-- Source constant `ENDPOINT_TYPE_1_NAME`. -/
def ENDPOINT_TYPE_1_NAME : String := "endpoint_1"

/-- Source constant `ENDPOINT_TYPE_2_NAME`. -/
def ENDPOINT_TYPE_2_NAME : String := "endpoint_2"

/-- Source constant `LRP_PREFIX` (renamed). -/
def LRP_PFX : String := "LRP"

/-- Source constant `LRP_NAME`. -/
def LRP_NAME : String := "lrp"

/-- Mutable attributes of `GammaAlgorithm`.  `boxes` models the `SortedSet`
as a list kept in descending `minSide` order (ties after existing entries,
matching the bisect insertion of `SortedSet` with the `_detail_comparator` key);
`gamma` itself does not appear because the gap function is passed to each
step explicitly. -/
structure GammaState where
  boxes : List Detail
  lrp : Option Detail
  stripe : Option Detail
  stripe_first_detail_index : ℕ
  is_stripe_horizontal : Bool
  last_placed_index : ℕ
  endpoints_placed : ℕ
  stripe_from : Option String
  update_placed_details : Bool
deriving DecidableEq

/-- Embeds `GammaAlgorithm.__init__` with first index `n0` and the
`update_placed_details` flag. -/
def init (n0 : ℕ) (upd : Bool) : GammaState :=
  { boxes := []
    lrp := none
    stripe := none
    stripe_first_detail_index := n0 - 1
    is_stripe_horizontal := false
    last_placed_index := n0 - 1
    endpoints_placed := 1
    stripe_from := none
    update_placed_details := upd }

/-- Insertion into the sorted box pool (`self.boxes.add`): the pool is kept in
descending `minSide` order and an entry with an equal key goes after the
existing ones, as `SortedSet` with the `_detail_comparator` key does. -/
def insertBox (b : Detail) : List Detail → List Detail
  | [] => [b]
  | x :: xs =>
    if Detail.minSide b ≤ Detail.minSide x then x :: insertBox b xs
    else b :: x :: xs

/-- Embeds `min(self.boxes[0].width, self.boxes[0].height) if len(self.boxes) > 0 else -1`. -/
def maxBoxSize : List Detail → ℚ
  | [] => -1
  | b :: _ => Detail.minSide b

/-- Embeds `GammaAlgorithm._check_if_lrp_none`: bootstrap the LRP from
`placed_details[0]`.  `none` corresponds to the Python `IndexError` when the
list is empty (an unreachable precondition violation). -/
def check_if_lrp_none (s : GammaState) (placed : List Detail) : Option GammaState :=
  match s.lrp with
  | none => placed.head?.map (fun d => { s with lrp := some d })
  | some _ => some s

/-- Embeds `GammaAlgorithm._check_stripe_size`: if a stripe is open and
`detail[0] + (1 / stripe_first_detail_index) ** gamma` exceeds the stripe
extent along the placement axis, the stripe is pushed into the box pool, the
stripe reference is cleared and `endpoints_placed` is incremented. -/
def check_stripe_size (gap : ℕ → ℚ) (detail : ℚ × ℚ) (s : GammaState) : GammaState :=
  match s.stripe with
  | none => s
  | some st =>
    let required_gap := gap s.stripe_first_detail_index
    let total_length := detail.1 + required_gap
    if (s.is_stripe_horizontal = true ∧ total_length > st.width) ∨
        (s.is_stripe_horizontal = false ∧ total_length > st.height) then
      { s with boxes := insertBox st s.boxes
               stripe := none
               endpoints_placed := s.endpoints_placed + 1 }
    else s

/-- Embeds `GammaAlgorithm._choose_strip_from_box`: take `boxes[0]` (the pool entry
of largest minimum side) as the new stripe.  `none` corresponds to the Python
`IndexError` on an empty pool (the caller only takes this path when the pool
check succeeded). -/
def choose_strip_from_box (s : GammaState) : Option GammaState :=
  match s.boxes with
  | [] => none
  | b :: _ =>
    some { s with stripe_from := some b.detail_type
                  stripe := some b
                  boxes := s.boxes.erase b
                  is_stripe_horizontal := decide (b.height ≤ b.width) }

/-- Result of a step that may raise AlgorithmExecutionException (`err`) or
hit an unreachable precondition violation (`crash`, a Python `IndexError` or
`AttributeError`). -/
inductive StepResult where
  | ok (s : GammaState) (placed : List Detail)
  | err (s : GammaState) (placed : List Detail)
  | crash
deriving DecidableEq

/-- Embeds `GammaAlgorithm._cut_new_strip`: cut a stripe of thickness
`detail[1] + (1 / (last_placed_index + 1)) ** gamma` from the LRP, parallel
to its shorter side; raise (`err`) when the LRP is too small.  Note that
`stripe_from` is assigned before the feasibility test, as in the source. -/
def cut_new_strip (gap : ℕ → ℚ) (detail : ℚ × ℚ) (s : GammaState) (placed : List Detail) :
    StepResult :=
  match s.lrp with
  | none => .crash
  | some lrp =>
    let s1 := { s with stripe_from := some lrp.detail_type }
    let required_gap := gap (s1.last_placed_index + 1)
    if detail.2 + required_gap > max lrp.width lrp.height ∨
        detail.1 + required_gap > min lrp.width lrp.height then
      .err s1 placed
    else
      let horiz := decide (lrp.width ≤ lrp.height)
      let stripe_bottom_left :=
        if horiz then lrp.bottom_left
        else (lrp.top_right.1 - detail.2 - required_gap, lrp.bottom_left.2)
      let stripe_top_right :=
        if horiz then (lrp.top_right.1, lrp.bottom_left.2 + detail.2 + required_gap)
        else lrp.top_right
      let new_lrp_bottom_left :=
        if horiz then (lrp.bottom_left.1, lrp.bottom_left.2 + detail.2 + required_gap)
        else lrp.bottom_left
      let new_lrp_top_right :=
        if horiz then lrp.top_right
        else (lrp.top_right.1 - detail.2 - required_gap, lrp.top_right.2)
      let stripe : Detail :=
        ⟨stripe_bottom_left, stripe_top_right,
          ENDPOINT_PFX ++ toString s1.endpoints_placed, ENDPOINT_TYPE_1_NAME⟩
      let new_lrp : Detail := ⟨new_lrp_bottom_left, new_lrp_top_right, LRP_PFX, LRP_NAME⟩
      let placed1 :=
        if s1.update_placed_details then placed.erase lrp ++ [stripe, new_lrp] else placed
      .ok { s1 with is_stripe_horizontal := horiz
                    stripe := some stripe
                    lrp := some new_lrp } placed1

/-- Embeds `GammaAlgorithm._choose_strip`: when no stripe is open, set
`stripe_first_detail_index = last_placed_index + 1` and either pop the best
pool box (when `detail[1] + requiredGap ≤ maxBoxSize`) or cut from the LRP. -/
def choose_strip (gap : ℕ → ℚ) (detail : ℚ × ℚ) (s : GammaState) (placed : List Detail) :
    StepResult :=
  match s.stripe with
  | some _ => .ok s placed
  | none =>
    let s1 := { s with stripe_first_detail_index := s.last_placed_index + 1 }
    let max_box_size := maxBoxSize s1.boxes
    let required_gap := gap s1.stripe_first_detail_index
    let total_length := detail.2 + required_gap
    if total_length ≤ max_box_size then
      match choose_strip_from_box s1 with
      | none => .crash
      | some s2 => .ok s2 placed
    else
      cut_new_strip gap detail s1 placed

/-- Embeds `GammaAlgorithm._get_normal_box_type`. -/
def get_normal_box_type (s : GammaState) : String :=
  if s.stripe_from = some LRP_NAME then NORMAL_BOX_TYPE_1_NAME else NORMAL_BOX_TYPE_2_NAME

/-- Embeds `GammaAlgorithm._get_endpoint_type`. -/
def get_endpoint_type (s : GammaState) : String :=
  if s.stripe_from = some LRP_NAME ∨ s.stripe_from = some ENDPOINT_TYPE_1_NAME then
    ENDPOINT_TYPE_1_NAME
  else ENDPOINT_TYPE_2_NAME

/-- Embeds `GammaAlgorithm._place_detail_in_stripe`: split the stripe into the placed
detail, a normal box and an endpoint; the endpoint becomes the new stripe and
the normal box enters the pool.  `none` corresponds to the Python
`AttributeError` when no stripe is open (unreachable: the caller has just
chosen one). -/
def place_detail_in_stripe (detail : ℚ × ℚ) (s : GammaState) (placed : List Detail) :
    Option (GammaState × List Detail) :=
  match s.stripe with
  | none => none
  | some stripe =>
    let normal_box_type := get_normal_box_type s
    let endpoint_type := get_endpoint_type s
    let s1 := { s with last_placed_index := s.last_placed_index + 1 }
    let horiz := s1.is_stripe_horizontal
    let placed_detail_bottom_left :=
      if horiz then stripe.bottom_left
      else (stripe.top_right.1 - detail.2, stripe.bottom_left.2)
    let placed_detail_top_right :=
      if horiz then (stripe.bottom_left.1 + detail.1, stripe.bottom_left.2 + detail.2)
      else (stripe.top_right.1, stripe.bottom_left.2 + detail.1)
    let normal_box_bottom_left :=
      if horiz then (stripe.bottom_left.1, stripe.bottom_left.2 + detail.2)
      else stripe.bottom_left
    let normal_box_top_right :=
      if horiz then (stripe.bottom_left.1 + detail.1, stripe.top_right.2)
      else (stripe.top_right.1 - detail.2, stripe.bottom_left.2 + detail.1)
    let endpoint_bottom_left :=
      if horiz then (stripe.bottom_left.1 + detail.1, stripe.bottom_left.2)
      else (stripe.bottom_left.1, stripe.bottom_left.2 + detail.1)
    let endpoint_top_right := stripe.top_right
    let placed_detail : Detail :=
      ⟨placed_detail_bottom_left, placed_detail_top_right,
        DETAIL_PFX ++ toString s1.last_placed_index, DETAIL_NAME⟩
    let normal_box : Detail :=
      ⟨normal_box_bottom_left, normal_box_top_right,
        NORMAL_BOX_PFX ++ toString s1.last_placed_index, normal_box_type⟩
    let endpoint : Detail :=
      ⟨endpoint_bottom_left, endpoint_top_right,
        ENDPOINT_PFX ++ toString s1.endpoints_placed, endpoint_type⟩
    let placed1 :=
      if s1.update_placed_details then
        placed.erase stripe ++ [placed_detail, normal_box, endpoint]
      else placed
    some ({ s1 with stripe := some endpoint, boxes := insertBox normal_box s1.boxes }, placed1)

/-- Embeds `GammaAlgorithm.place_next`: the four sequential phases of one call. -/
def place_next (gap : ℕ → ℚ) (detail : ℚ × ℚ) (s : GammaState) (placed : List Detail) :
    StepResult :=
  match check_if_lrp_none s placed with
  | none => .crash
  | some s1 =>
    match choose_strip gap detail (check_stripe_size gap detail s1) placed with
    | .crash => .crash
    | .err s3 p3 => .err s3 p3
    | .ok s3 p3 =>
      match place_detail_in_stripe detail s3 p3 with
      | none => .crash
      | some (s4, p4) => .ok s4 p4

/-- The state of a `place_next` call just after the stripe has been chosen
(end of phase 3), used to phrase hypotheses about the stripe a detail is
about to be placed into. -/
def afterChoose (gap : ℕ → ℚ) (detail : ℚ × ℚ) (s : GammaState) (placed : List Detail) :
    StepResult :=
  match check_if_lrp_none s placed with
  | none => .crash
  | some s1 => choose_strip gap detail (check_stripe_size gap detail s1) placed

/-- Run `place_next` over a list of input sizes, returning the final state and
placed list when every call succeeds. -/
def runPlace (gap : ℕ → ℚ) : List (ℚ × ℚ) → GammaState → List Detail →
    Option (GammaState × List Detail)
  | [], s, placed => some (s, placed)
  | d :: rest, s, placed =>
    match place_next gap d s placed with
    | .ok s' p' => runPlace gap rest s' p'
    | _ => none

/-! ### Geometry of rectangles -/

/-- Extent of a detail along the placement axis of a stripe of the given
orientation. -/
def stripeExtent (horiz : Bool) (d : Detail) : ℚ := if horiz then d.width else d.height

/-- Extent of a detail perpendicular to the placement axis. -/
def stripePerp (horiz : Bool) (d : Detail) : ℚ := if horiz then d.height else d.width

/-- Both sides strictly positive. -/
def posDims (d : Detail) : Prop := 0 < d.width ∧ 0 < d.height

/-- Overlap of the two x-projections (may be negative when disjoint). -/
def interWidth (a b : Detail) : ℚ :=
  min a.top_right.1 b.top_right.1 - max a.bottom_left.1 b.bottom_left.1

/-- Overlap of the two y-projections (may be negative when disjoint). -/
def interHeight (a b : Detail) : ℚ :=
  min a.top_right.2 b.top_right.2 - max a.bottom_left.2 b.bottom_left.2

/-- Area of the rectangle intersection of two details. -/
def interArea (a b : Detail) : ℚ :=
  max (interWidth a b) 0 * max (interHeight a b) 0

/-- Zero-area rectangle intersection. -/
def interZero (a b : Detail) : Prop := interArea a b = 0

/-- The half-open point set a detail occupies; half-open boxes make cuts and
placements exact partitions of their parent. -/
def region (d : Detail) : Set (ℚ × ℚ) :=
  {p | d.bottom_left.1 ≤ p.1 ∧ p.1 < d.top_right.1 ∧
       d.bottom_left.2 ≤ p.2 ∧ p.2 < d.top_right.2}

/-- Rectangle `c` lies inside `d` (corner-wise). -/
def subRect (c d : Detail) : Prop :=
  d.bottom_left.1 ≤ c.bottom_left.1 ∧ c.top_right.1 ≤ d.top_right.1 ∧
  d.bottom_left.2 ≤ c.bottom_left.2 ∧ c.top_right.2 ≤ d.top_right.2

/-- Sum of the (signed) areas of a list of details. -/
def areaSum (l : List Detail) : ℚ := (l.map Detail.area).sum

/-- Two details partition a parent detail (as half-open regions). -/
def PartitionTwo (parent a b : Detail) : Prop :=
  region a ∪ region b = region parent ∧ region a ∩ region b = ∅

/-- Three details partition a parent detail (as half-open regions). -/
def PartitionThree (parent a b c : Detail) : Prop :=
  region a ∪ region b ∪ region c = region parent ∧
  region a ∩ region b = ∅ ∧ region a ∩ region c = ∅ ∧ region b ∩ region c = ∅

/-! ### The inductive invariant -/

/-- Inductive invariant tying the engine state to the externally owned
`placed_details` list when `update_placed_details` is set: the listed details
have pairwise zero-area intersections and positive sides, the live engine
pieces (LRP, stripe, pool boxes) are listed, the LRP is separated from the
pool pieces by its type tag, the stripe is not in the pool, and the pool has
no duplicates. -/
structure Inv (s : GammaState) (placed : List Detail) : Prop where
  pairwise : placed.Pairwise interZero
  pos : ∀ d ∈ placed, posDims d
  stripe_mem : ∀ st, s.stripe = some st → st ∈ placed
  lrp_mem : ∀ l, s.lrp = some l → l ∈ placed
  boxes_mem : ∀ b ∈ s.boxes, b ∈ placed
  lrp_sep : ∀ l, s.lrp = some l →
    l.detail_type = LRP_NAME ∨ (s.stripe = none ∧ s.boxes = [])
  stripe_type : ∀ st, s.stripe = some st → st.detail_type ≠ LRP_NAME
  boxes_type : ∀ b ∈ s.boxes, b.detail_type ≠ LRP_NAME
  stripe_not_box : ∀ st, s.stripe = some st → st ∉ s.boxes
  boxes_nodup : s.boxes.Nodup
  lrp_none : s.lrp = none → s.stripe = none ∧ s.boxes = []
  upd : s.update_placed_details = true

/-- The per-call proviso of the amended invariant claims: every placement fits
strictly inside the stripe chosen for it, and every LRP cut leaves a remainder
with positive sides. -/
def FitRun (gap : ℕ → ℚ) : List (ℚ × ℚ) → GammaState → List Detail → Prop
  | [], _, _ => True
  | d :: rest, s, placed =>
    (∀ s3 p3 st, afterChoose gap d s placed = .ok s3 p3 → s3.stripe = some st →
        d.1 < stripeExtent s3.is_stripe_horizontal st ∧
        d.2 < stripePerp s3.is_stripe_horizontal st) ∧
    (∀ s3 p3 l, afterChoose gap d s placed = .ok s3 p3 → s3.lrp = some l → posDims l) ∧
    (∀ s' p', place_next gap d s placed = .ok s' p' → FitRun gap rest s' p')

/-- Whether a step outcome is the raised `AlgorithmExecutionException`. -/
def isErr : StepResult → Bool
  | .err _ _ => true
  | _ => false

/-! ### Concrete runs (gamma = 1, n0 = 1, a 10 by 10 sheet)

The gap sequence of `gamma = 1` is `(1 / i) ** 1 = 1 / i`, exactly
representable in `ℚ`, so every quantity of these runs is exact. -/

/-- The gap sequence of `gamma = 1`. -/
def g1 : ℕ → ℚ := fun i => 1 / (i : ℚ)

/-- A 10 by 10 sheet, the initial LRP of the concrete runs. -/
def sheet0 : Detail := ⟨(0, 0), (10, 10), LRP_PFX, LRP_NAME⟩

/-- The remaining LRP after the first cut (of thickness `1 + g1 1 = 2`). -/
def LRPp : Detail := ⟨(0, 2), (10, 10), LRP_PFX, LRP_NAME⟩

/-- The stripe produced by the first cut, before anything is placed in it. -/
def Ep1a : Detail := ⟨(0, 0), (10, 2), "Ep1", ENDPOINT_TYPE_1_NAME⟩

/-- The endpoint remaining of stripe 1 after the first placement. -/
def Ep1b : Detail := ⟨(2, 0), (10, 2), "Ep1", ENDPOINT_TYPE_1_NAME⟩

/-- The endpoint remaining of stripe 1 after the second placement. -/
def Ep1c : Detail := ⟨(6, 0), (10, 2), "Ep1", ENDPOINT_TYPE_1_NAME⟩

/-- Detail 1, the placed copy of input (2, 1). -/
def S1c : Detail := ⟨(0, 0), (2, 1), "S1", DETAIL_NAME⟩

/-- Normal box above detail 1. -/
def B1c : Detail := ⟨(0, 1), (2, 2), "B1", NORMAL_BOX_TYPE_1_NAME⟩

/-- Detail 2, the placed copy of input (4, 11/10). -/
def S2c : Detail := ⟨(2, 0), (6, 11/10), "S2", DETAIL_NAME⟩

/-- Normal box above detail 2. -/
def B2c : Detail := ⟨(2, 11/10), (6, 2), "B2", NORMAL_BOX_TYPE_1_NAME⟩

/-- Detail 3, the placed copy of input (18/5, 3/2). -/
def S3c : Detail := ⟨(6, 0), (48/5, 3/2), "S3", DETAIL_NAME⟩

/-- Normal box above detail 3. -/
def B3c : Detail := ⟨(6, 3/2), (48/5, 2), "B3", NORMAL_BOX_TYPE_2_NAME⟩

/-- The endpoint remaining of stripe 1 after the third placement. -/
def Ep2c : Detail := ⟨(48/5, 0), (10, 2), "Ep2", ENDPOINT_TYPE_1_NAME⟩

/-- Detail 4, the placed copy of input (5, 1/2): it overshoots stripe B1. -/
def S4c : Detail := ⟨(0, 1), (5, 3/2), "S4", DETAIL_NAME⟩

/-- Normal box above detail 4 (also overshooting stripe B1). -/
def B4c : Detail := ⟨(0, 3/2), (5, 2), "B4", NORMAL_BOX_TYPE_2_NAME⟩

/-- The endpoint produced by the fourth placement: its width is negative. -/
def Ep3c : Detail := ⟨(5, 1), (2, 2), "Ep3", ENDPOINT_TYPE_2_NAME⟩

/-- The state `_choose_strip` passes to `_cut_new_strip` on the first call. -/
def cutIn : GammaState := ⟨[], some sheet0, none, 1, false, 0, 1, none, true⟩

/-- The state right after the first cut, stripe `Ep1a` open. -/
def cutOut : GammaState := ⟨[], some LRPp, some Ep1a, 1, true, 0, 1, some LRP_NAME, true⟩

/-- The placed list right after the first cut. -/
def cutP : List Detail := [Ep1a, LRPp]

/-- The engine state after call 1. -/
def st1 : GammaState := ⟨[B1c], some LRPp, some Ep1b, 1, true, 1, 1, some LRP_NAME, true⟩

/-- The placed list after call 1. -/
def p1L : List Detail := [LRPp, S1c, B1c, Ep1b]

/-- The engine state after call 2. -/
def st2 : GammaState := ⟨[B1c, B2c], some LRPp, some Ep1c, 1, true, 2, 1, some LRP_NAME, true⟩

/-- The placed list after call 2. -/
def p2L : List Detail := [LRPp, S1c, B1c, S2c, B2c, Ep1c]

/-- The engine state after call 3. -/
def st3 : GammaState := ⟨[B1c, B2c, B3c], some LRPp, some Ep2c, 3, true, 3, 2, some ENDPOINT_TYPE_1_NAME, true⟩

/-- The placed list after call 3. -/
def p3L : List Detail := [LRPp, S1c, B1c, S2c, B2c, S3c, B3c, Ep2c]

/-- Call 4's state once the capacity check has closed stripe `Ep2c` into the pool. -/
def stPool : GammaState := ⟨[B1c, B2c, B3c, Ep2c], some LRPp, none, 3, true, 3, 3, some ENDPOINT_TYPE_1_NAME, true⟩

/-- Call 4's state once `B1c` has been popped from the pool as the new stripe. -/
def stChosen : GammaState := ⟨[B2c, B3c, Ep2c], some LRPp, some B1c, 4, true, 3, 3, some NORMAL_BOX_TYPE_1_NAME, true⟩

/-- The engine state after call 4. -/
def st4 : GammaState := ⟨[B2c, B3c, B4c, Ep2c], some LRPp, some Ep3c, 4, true, 4, 3, some NORMAL_BOX_TYPE_1_NAME, true⟩

/-- The placed list after call 4: `S4c` overlaps `S2c` and `Ep3c` is degenerate. -/
def p4L : List Detail := [LRPp, S1c, S2c, B2c, S3c, B3c, Ep2c, S4c, B4c, Ep3c]

/-- A sheet far too small for any of the inputs, driving `place_next` into the
error branch on the first call. -/
def tinySheet : Detail := ⟨(0, 0), (1/100, 1/100), LRP_PFX, LRP_NAME⟩

/-- The tiny-sheet state right after the LRP bootstrap. -/
def tinyBoot : GammaState := ⟨[], some tinySheet, none, 0, false, 0, 1, none, true⟩

end MoserGamma

namespace MoserGamma

/-! ### Basic geometric lemmas -/

theorem interWidth_comm (a b : Detail) : interWidth a b = interWidth b a := by
  unfold interWidth; rw [min_comm, max_comm]

theorem interHeight_comm (a b : Detail) : interHeight a b = interHeight b a := by
  unfold interHeight; rw [min_comm, max_comm]

theorem interArea_comm (a b : Detail) : interArea a b = interArea b a := by
  unfold interArea; rw [interWidth_comm, interHeight_comm]

theorem interZero_symm : Symmetric interZero := by
  intro a b h; unfold interZero at h ⊢; rw [interArea_comm]; exact h

theorem interArea_self_pos {d : Detail} (hd : posDims d) : 0 < interArea d d := by
  obtain ⟨h1, h2⟩ := hd
  unfold Detail.width at h1
  unfold Detail.height at h2
  unfold interArea interWidth interHeight
  simp only [min_self, max_self]
  rw [max_eq_left h1.le, max_eq_left h2.le]
  exact mul_pos h1 h2

theorem interZero_of_subRect {c d e : Detail} (hcd : subRect c d) (h : interZero d e) :
    interZero c e := by
  obtain ⟨hx1, hx2, hy1, hy2⟩ := hcd
  unfold interZero interArea at h ⊢
  have hwle : max (interWidth c e) 0 ≤ max (interWidth d e) 0 := by
    apply max_le_max _ le_rfl
    unfold interWidth
    exact sub_le_sub (min_le_min hx2 le_rfl) (max_le_max hx1 le_rfl)
  have hhle : max (interHeight c e) 0 ≤ max (interHeight d e) 0 := by
    apply max_le_max _ le_rfl
    unfold interHeight
    exact sub_le_sub (min_le_min hy2 le_rfl) (max_le_max hy1 le_rfl)
  have hw0 : (0 : ℚ) ≤ max (interWidth c e) 0 := le_max_right _ _
  have hh0 : (0 : ℚ) ≤ max (interHeight c e) 0 := le_max_right _ _
  rcases mul_eq_zero.mp h with h0 | h0
  · exact mul_eq_zero.mpr (Or.inl (le_antisymm (hwle.trans (le_of_eq h0)) hw0))
  · exact mul_eq_zero.mpr (Or.inr (le_antisymm (hhle.trans (le_of_eq h0)) hh0))

theorem interArea_pos_of_subRect {c d : Detail} (hcd : subRect c d) (hc : posDims c) :
    0 < interArea c d := by
  obtain ⟨hx1, hx2, hy1, hy2⟩ := hcd
  obtain ⟨h1, h2⟩ := hc
  unfold Detail.width at h1
  unfold Detail.height at h2
  unfold interArea interWidth interHeight
  rw [min_eq_left hx2, max_eq_left hx1, min_eq_left hy2, max_eq_left hy1]
  rw [max_eq_left h1.le, max_eq_left h2.le]
  exact mul_pos h1 h2

/-! ### Pool-list lemmas -/

theorem mem_insertBox {a b : Detail} : ∀ {l : List Detail},
    a ∈ insertBox b l ↔ a = b ∨ a ∈ l := by
  intro l
  induction l with
  | nil => simp [insertBox]
  | cons x xs ih =>
    unfold insertBox
    split
    · simp only [List.mem_cons, ih]
      tauto
    · simp only [List.mem_cons]

theorem nodup_insertBox {b : Detail} {l : List Detail} (hb : b ∉ l) (hl : l.Nodup) :
    (insertBox b l).Nodup := by
  induction l with
  | nil => simp [insertBox]
  | cons x xs ih =>
    rcases List.nodup_cons.mp hl with ⟨hx, hxs⟩
    unfold insertBox
    split
    · refine List.nodup_cons.mpr ⟨?_, ih (fun h => hb (List.mem_cons_of_mem _ h)) hxs⟩
      intro hmem
      rcases mem_insertBox.mp hmem with rfl | h
      · exact hb (List.mem_cons_self _ _)
      · exact hx h
    · exact List.nodup_cons.mpr ⟨hb, hl⟩

theorem nodup_of_pairwise_pos {l : List Detail} (hp : l.Pairwise interZero)
    (hpos : ∀ d ∈ l, posDims d) : l.Nodup := by
  refine List.Pairwise.imp_of_mem ?_ hp
  intro a b ha _ hz heq
  subst heq
  have := interArea_self_pos (hpos a ha)
  rw [hz] at this
  exact lt_irrefl 0 this

/-! ### Area-sum lemmas -/

theorem areaSum_append (l1 l2 : List Detail) : areaSum (l1 ++ l2) = areaSum l1 + areaSum l2 := by
  unfold areaSum; rw [List.map_append, List.sum_append]

theorem areaSum_cons (a : Detail) (l : List Detail) : areaSum (a :: l) = a.area + areaSum l := by
  unfold areaSum; rw [List.map_cons, List.sum_cons]

theorem areaSum_erase {a : Detail} : ∀ {l : List Detail}, a ∈ l →
    areaSum (l.erase a) = areaSum l - a.area := by
  intro l h
  induction l with
  | nil => cases h
  | cons x xs ih =>
    by_cases hxa : x = a
    · subst hxa
      rw [List.erase_cons_head, areaSum_cons]
      ring
    · have hmem : a ∈ xs := by
        rcases List.mem_cons.mp h with h1 | h1
        · exact absurd h1.symm hxa
        · exact h1
      rw [List.erase_cons_tail (by simpa using hxa), areaSum_cons, areaSum_cons, ih hmem]
      ring


/-! ### Step equation lemmas -/

theorem check_stripe_size_none {gap : ℕ → ℚ} {detail : ℚ × ℚ} {s : GammaState}
    (h : s.stripe = none) : check_stripe_size gap detail s = s := by
  unfold check_stripe_size
  rw [h]

theorem check_stripe_size_close {gap : ℕ → ℚ} {detail : ℚ × ℚ} {s : GammaState} {st : Detail}
    (h : s.stripe = some st)
    (hc : (s.is_stripe_horizontal = true ∧ detail.1 + gap s.stripe_first_detail_index > st.width) ∨
      (s.is_stripe_horizontal = false ∧ detail.1 + gap s.stripe_first_detail_index > st.height)) :
    check_stripe_size gap detail s =
      { s with boxes := insertBox st s.boxes
               stripe := none
               endpoints_placed := s.endpoints_placed + 1 } := by
  unfold check_stripe_size
  rw [h]
  exact if_pos hc

theorem check_stripe_size_keep {gap : ℕ → ℚ} {detail : ℚ × ℚ} {s : GammaState} {st : Detail}
    (h : s.stripe = some st)
    (hc : ¬((s.is_stripe_horizontal = true ∧ detail.1 + gap s.stripe_first_detail_index > st.width) ∨
      (s.is_stripe_horizontal = false ∧ detail.1 + gap s.stripe_first_detail_index > st.height))) :
    check_stripe_size gap detail s = s := by
  unfold check_stripe_size
  rw [h]
  exact if_neg hc

/-! ### Invariant: establishment and preservation -/

theorem init_inv {n0 : ℕ} {sheet : Detail} (hs : posDims sheet) :
    Inv (init n0 true) [sheet] := by
  refine ⟨?_, ?_, ?_, ?_, ?_, ?_, ?_, ?_, ?_, ?_, ?_, ?_⟩ <;>
    simp [init, List.pairwise_singleton]
  exact hs

theorem boot_inv {s s1 : GammaState} {placed : List Detail} (h : Inv s placed)
    (hb : check_if_lrp_none s placed = some s1) : Inv s1 placed := by
  obtain ⟨hpw, hpos, hsm, hlm, hbm, hsep, hstt, hbt, hsnb, hnd, hln, hupd⟩ := h
  unfold check_if_lrp_none at hb
  cases hl : s.lrp with
  | some l =>
    rw [hl] at hb
    cases hb
    exact ⟨hpw, hpos, hsm, hlm, hbm, hsep, hstt, hbt, hsnb, hnd, hln, hupd⟩
  | none =>
    rw [hl] at hb
    cases hp : placed.head? with
    | none => rw [hp] at hb; cases hb
    | some d =>
      rw [hp] at hb
      cases hb
      have hdmem : d ∈ placed := by
        cases placed with
        | nil => cases hp
        | cons x xs => cases hp; exact List.mem_cons_self _ _
      obtain ⟨hstr, hbox⟩ := hln hl
      refine ⟨hpw, hpos, ?_, ?_, ?_, ?_, ?_, ?_, ?_, ?_, ?_, ?_⟩
      · intro st hst; exact hsm st hst
      · intro l hl'
        simp only at hl'
        cases hl'
        exact hdmem
      · intro b hb; exact hbm b hb
      · intro l _
        exact Or.inr ⟨hstr, hbox⟩
      · intro st hst; exact hstt st hst
      · intro b hb; exact hbt b hb
      · intro st hst; exact hsnb st hst
      · exact hnd
      · intro hcon
        simp only at hcon
        exact Option.noConfusion hcon
      · exact hupd

theorem css_inv {gap : ℕ → ℚ} {detail : ℚ × ℚ} {s : GammaState} {placed : List Detail}
    (h : Inv s placed) : Inv (check_stripe_size gap detail s) placed := by
  obtain ⟨hpw, hpos, hsm, hlm, hbm, hsep, hstt, hbt, hsnb, hnd, hln, hupd⟩ := h
  cases hst : s.stripe with
  | none =>
    rw [check_stripe_size_none hst]
    exact ⟨hpw, hpos, hsm, hlm, hbm, hsep, hstt, hbt, hsnb, hnd, hln, hupd⟩
  | some st =>
    by_cases hc : (s.is_stripe_horizontal = true ∧
        detail.1 + gap s.stripe_first_detail_index > st.width) ∨
      (s.is_stripe_horizontal = false ∧ detail.1 + gap s.stripe_first_detail_index > st.height)
    · rw [check_stripe_size_close hst hc]
      refine ⟨hpw, hpos, ?_, ?_, ?_, ?_, ?_, ?_, ?_, ?_, ?_, ?_⟩
      · intro st' hst'
        simp only at hst'
        exact Option.noConfusion hst'
      · intro l hl
        simp only at hl
        exact hlm l hl
      · intro b hb
        simp only at hb
        rcases mem_insertBox.mp hb with rfl | hb'
        · exact hsm _ hst
        · exact hbm b hb'
      · intro l hl
        simp only at hl
        rcases hsep l hl with h1 | ⟨h1, _⟩
        · exact Or.inl h1
        · rw [hst] at h1; cases h1
      · intro st' hst'
        simp only at hst'
        exact Option.noConfusion hst'
      · intro b hb
        simp only at hb
        rcases mem_insertBox.mp hb with rfl | hb'
        · exact hstt _ hst
        · exact hbt b hb'
      · intro st' hst'
        simp only at hst'
        exact Option.noConfusion hst'
      · simp only
        exact nodup_insertBox (hsnb st hst) hnd
      · intro hcon
        simp only at hcon
        obtain ⟨h1, _⟩ := hln hcon
        rw [hst] at h1; cases h1
      · exact hupd
    · rw [check_stripe_size_keep hst hc]
      exact ⟨hpw, hpos, hsm, hlm, hbm, hsep, hstt, hbt, hsnb, hnd, hln, hupd⟩


/-! ### Replacing a parent detail by children inside the placed list -/

theorem ne_of_childRect {placed : List Detail} {p0 c b : Detail}
    (hpw : placed.Pairwise interZero) (hp0 : p0 ∈ placed) (hb : b ∈ placed)
    (hne : b ≠ p0) (hsub : subRect c p0) (hc : posDims c) : c ≠ b := by
  intro heq
  subst heq
  have hz : interZero p0 c := hpw.forall interZero_symm hp0 hb (fun h => hne h.symm)
  have hpos := interArea_pos_of_subRect hsub hc
  rw [interZero, interArea_comm] at hz
  rw [hz] at hpos
  exact lt_irrefl 0 hpos

theorem placed_replace {placed : List Detail} {p0 : Detail} (ch : List Detail)
    (hpw : placed.Pairwise interZero) (hpos : ∀ d ∈ placed, posDims d) (hp0 : p0 ∈ placed)
    (hsub : ∀ c ∈ ch, subRect c p0) (hchpw : ch.Pairwise interZero)
    (hchpos : ∀ c ∈ ch, posDims c) :
    (placed.erase p0 ++ ch).Pairwise interZero ∧
    (∀ d ∈ placed.erase p0 ++ ch, posDims d) ∧
    areaSum (placed.erase p0 ++ ch) = areaSum placed - p0.area + areaSum ch := by
  have hnd := nodup_of_pairwise_pos hpw hpos
  refine ⟨?_, ?_, ?_⟩
  · rw [List.pairwise_append]
    refine ⟨hpw.sublist (placed.erase_sublist p0), hchpw, ?_⟩
    intro a ha c hc
    have hmem := (hnd.mem_erase_iff.mp ha).2
    have hane := (hnd.mem_erase_iff.mp ha).1
    have hz : interZero p0 a := hpw.forall interZero_symm hp0 hmem (fun h => hane h.symm)
    exact interZero_symm (interZero_of_subRect (hsub c hc) hz)
  · intro d hd
    rcases List.mem_append.mp hd with hd | hd
    · exact hpos d (List.mem_of_mem_erase hd)
    · exact hchpos d hd
  · rw [areaSum_append, areaSum_erase hp0]

/-! ### Destructuring a successful LRP cut -/

theorem cut_new_strip_cases {gap : ℕ → ℚ} {detail : ℚ × ℚ} {s s1 : GammaState}
    {placed p1 : List Detail} (hok : cut_new_strip gap detail s placed = .ok s1 p1) :
    ∃ l, s.lrp = some l ∧
      detail.2 + gap (s.last_placed_index + 1) ≤ max l.width l.height ∧
      detail.1 + gap (s.last_placed_index + 1) ≤ min l.width l.height ∧
      ((l.width ≤ l.height ∧ ∃ ST NL,
          ST = ⟨l.bottom_left,
            (l.top_right.1, l.bottom_left.2 + detail.2 + gap (s.last_placed_index + 1)),
            ENDPOINT_PFX ++ toString s.endpoints_placed, ENDPOINT_TYPE_1_NAME⟩ ∧
          NL = ⟨(l.bottom_left.1, l.bottom_left.2 + detail.2 + gap (s.last_placed_index + 1)),
            l.top_right, LRP_PFX, LRP_NAME⟩ ∧
          s1 = { s with stripe_from := some l.detail_type, is_stripe_horizontal := true, stripe := some ST, lrp := some NL } ∧
          p1 = if s.update_placed_details then placed.erase l ++ [ST, NL] else placed) ∨
        (¬l.width ≤ l.height ∧ ∃ ST NL,
          ST = ⟨(l.top_right.1 - detail.2 - gap (s.last_placed_index + 1), l.bottom_left.2),
            l.top_right, ENDPOINT_PFX ++ toString s.endpoints_placed, ENDPOINT_TYPE_1_NAME⟩ ∧
          NL = ⟨l.bottom_left,
            (l.top_right.1 - detail.2 - gap (s.last_placed_index + 1), l.top_right.2),
            LRP_PFX, LRP_NAME⟩ ∧
          s1 = { s with stripe_from := some l.detail_type, is_stripe_horizontal := false, stripe := some ST, lrp := some NL } ∧
          p1 = if s.update_placed_details then placed.erase l ++ [ST, NL] else placed)) := by
  cases hlo : s.lrp with
  | none =>
    simp only [cut_new_strip, hlo] at hok
    exact StepResult.noConfusion hok
  | some l =>
    simp only [cut_new_strip, hlo] at hok
    by_cases hfeas : detail.2 + gap (s.last_placed_index + 1) > max l.width l.height ∨
        detail.1 + gap (s.last_placed_index + 1) > min l.width l.height
    · rw [if_pos hfeas] at hok
      exact StepResult.noConfusion hok
    · rw [if_neg hfeas] at hok
      push_neg at hfeas
      by_cases hwh : l.width ≤ l.height
      · simp only [hwh, decide_True, if_true] at hok
        injection hok with h1 h2
        exact ⟨l, rfl, hfeas.1, hfeas.2,
          Or.inl ⟨hwh, _, _, rfl, rfl, h1.symm, h2.symm⟩⟩
      · simp only [hwh, decide_False, if_false] at hok
        injection hok with h1 h2
        exact ⟨l, rfl, hfeas.1, hfeas.2,
          Or.inr ⟨hwh, _, _, rfl, rfl, h1.symm, h2.symm⟩⟩


theorem areaSum_nil : areaSum [] = 0 := rfl

theorem areaSum_pair (a b : Detail) : areaSum [a, b] = a.area + b.area := by
  rw [areaSum_cons, areaSum_cons, areaSum_nil]
  ring

theorem cut_inv_finish {s s1 : GammaState} {placed : List Detail} {l ST NL : Detail}
    (hpw : placed.Pairwise interZero) (hpos : ∀ d ∈ placed, posDims d)
    (hlp : l ∈ placed) (hbm : ∀ b ∈ s.boxes, b ∈ placed)
    (hbt : ∀ b ∈ s.boxes, b.detail_type ≠ LRP_NAME)
    (hbne : ∀ b ∈ s.boxes, b ≠ l) (hnd : s.boxes.Nodup)
    (hupd : s.update_placed_details = true)
    (hSTsub : subRect ST l) (hNLsub : subRect NL l) (hz : interZero ST NL)
    (hSTpos : posDims ST) (hNLpos : posDims NL) (harea : ST.area + NL.area = l.area)
    (hSTtype : ST.detail_type = ENDPOINT_TYPE_1_NAME)
    (hNLtype : NL.detail_type = LRP_NAME)
    (hs1b : s1.boxes = s.boxes) (hs1l : s1.lrp = some NL) (hs1st : s1.stripe = some ST)
    (hs1u : s1.update_placed_details = s.update_placed_details) :
    Inv s1 (placed.erase l ++ [ST, NL]) ∧
    areaSum (placed.erase l ++ [ST, NL]) = areaSum placed := by
  obtain ⟨rpw, rpos, rsum⟩ := placed_replace [ST, NL] hpw hpos hlp
    (by
      intro c hc
      rcases List.mem_cons.mp hc with rfl | hc
      · exact hSTsub
      · rcases List.mem_cons.mp hc with rfl | hc
        · exact hNLsub
        · cases hc)
    (by
      refine List.pairwise_cons.mpr ⟨?_, List.pairwise_singleton _ _⟩
      intro c hc
      rcases List.mem_cons.mp hc with rfl | hc
      · exact hz
      · exact absurd hc (List.not_mem_nil _))
    (by
      intro c hc
      rcases List.mem_cons.mp hc with rfl | hc
      · exact hSTpos
      · rcases List.mem_cons.mp hc with hc2 | hc
        · subst hc2
          exact hNLpos
        · exact absurd hc (List.not_mem_nil _))
  refine ⟨⟨rpw, rpos, ?_, ?_, ?_, ?_, ?_, ?_, ?_, ?_, ?_, ?_⟩, ?_⟩
  · intro st hst
    rw [hs1st] at hst
    cases hst
    exact List.mem_append.mpr (Or.inr (List.mem_cons_self _ _))
  · intro nl hnl'
    rw [hs1l] at hnl'
    cases hnl'
    exact List.mem_append.mpr (Or.inr (List.mem_cons_of_mem _ (List.mem_cons_self _ _)))
  · intro b hb
    rw [hs1b] at hb
    refine List.mem_append.mpr (Or.inl ?_)
    exact (List.mem_erase_of_ne (hbne b hb)).mpr (hbm b hb)
  · intro nl hnl'
    rw [hs1l] at hnl'
    cases hnl'
    exact Or.inl hNLtype
  · intro st hst
    rw [hs1st] at hst
    cases hst
    rw [hSTtype]
    intro hcon
    exact absurd hcon (by decide)
  · intro b hb
    rw [hs1b] at hb
    exact hbt b hb
  · intro st hst
    rw [hs1st] at hst
    cases hst
    intro hmem
    rw [hs1b] at hmem
    exact ne_of_childRect hpw hlp (hbm ST hmem) (hbne ST hmem) hSTsub hSTpos rfl
  · rw [hs1b]
    exact hnd
  · intro hcon
    rw [hs1l] at hcon
    exact Option.noConfusion hcon
  · rw [hs1u]
    exact hupd
  · rw [rsum, areaSum_pair, harea]
    ring

theorem cut_inv {gap : ℕ → ℚ} {detail : ℚ × ℚ} {s s1 : GammaState} {placed p1 : List Detail}
    (h : Inv s placed) (hok : cut_new_strip gap detail s placed = .ok s1 p1)
    (hnl : ∀ nl, s1.lrp = some nl → posDims nl)
    (hd2 : 0 < detail.2) (hg : 0 < gap (s.last_placed_index + 1)) :
    Inv s1 p1 ∧ areaSum p1 = areaSum placed := by
  obtain ⟨hpw, hpos, hsm, hlm, hbm, hsep, hstt, hbt, hsnb, hnd, hln, hupd⟩ := h
  obtain ⟨l, hlo, hf1, hf2, hcase⟩ := cut_new_strip_cases hok
  have hlp : l ∈ placed := hlm l hlo
  have hlpos : posDims l := hpos l hlp
  have hbne : ∀ b ∈ s.boxes, b ≠ l := by
    intro b hb heq
    rcases hsep l hlo with h1 | ⟨_, h2⟩
    · exact hbt b hb (heq ▸ h1)
    · rw [h2] at hb; cases hb
  have ht0 : 0 < detail.2 + gap (s.last_placed_index + 1) := by linarith
  obtain ⟨hw0, hh0⟩ := hlpos
  unfold Detail.width at hw0
  unfold Detail.height at hh0
  rcases hcase with ⟨hwh, ST, NL, hSTdef, hNLdef, hs1, hp1⟩ |
      ⟨hwh, ST, NL, hSTdef, hNLdef, hs1, hp1⟩
  · rw [max_eq_right hwh] at hf1
    simp only [Detail.width, Detail.height] at hwh hf1
    rw [hupd] at hp1
    simp only [if_true] at hp1
    subst hp1
    have hNLpos : posDims NL := hnl NL (by rw [hs1])
    refine cut_inv_finish hpw hpos hlp hbm hbt hbne hnd hupd ?_ ?_ ?_ ?_ hNLpos ?_ ?_ ?_
      (by rw [hs1]) (by rw [hs1]) (by rw [hs1]) (by rw [hs1])
    · subst hSTdef
      unfold subRect
      dsimp only
      exact ⟨le_refl _, le_refl _, le_refl _, by linarith⟩
    · subst hNLdef
      unfold subRect
      dsimp only
      exact ⟨le_refl _, le_refl _, by linarith, le_refl _⟩
    · subst hSTdef
      subst hNLdef
      unfold interZero interArea
      rw [show interHeight
          ⟨l.bottom_left, (l.top_right.1, l.bottom_left.2 + detail.2 + gap (s.last_placed_index + 1)), ENDPOINT_PFX ++ toString s.endpoints_placed, ENDPOINT_TYPE_1_NAME⟩
          ⟨(l.bottom_left.1, l.bottom_left.2 + detail.2 + gap (s.last_placed_index + 1)), l.top_right, LRP_PFX, LRP_NAME⟩ = 0 from by
        unfold interHeight
        dsimp only
        rw [min_eq_left (by linarith), max_eq_right (by linarith)]
        ring]
      simp
    · subst hSTdef
      unfold posDims Detail.width Detail.height
      dsimp only
      constructor <;> linarith
    · subst hSTdef
      subst hNLdef
      unfold Detail.area Detail.width Detail.height
      dsimp only
      ring
    · subst hSTdef
      rfl
    · subst hNLdef
      rfl
  · rw [max_eq_left (le_of_not_le hwh)] at hf1
    simp only [Detail.width, Detail.height] at hwh hf1
    rw [hupd] at hp1
    simp only [if_true] at hp1
    subst hp1
    have hNLpos : posDims NL := hnl NL (by rw [hs1])
    refine cut_inv_finish hpw hpos hlp hbm hbt hbne hnd hupd ?_ ?_ ?_ ?_ hNLpos ?_ ?_ ?_
      (by rw [hs1]) (by rw [hs1]) (by rw [hs1]) (by rw [hs1])
    · subst hSTdef
      unfold subRect
      dsimp only
      exact ⟨by linarith, le_refl _, le_refl _, le_refl _⟩
    · subst hNLdef
      unfold subRect
      dsimp only
      exact ⟨le_refl _, by linarith, le_refl _, le_refl _⟩
    · subst hSTdef
      subst hNLdef
      unfold interZero interArea
      rw [show interWidth
          ⟨(l.top_right.1 - detail.2 - gap (s.last_placed_index + 1), l.bottom_left.2), l.top_right, ENDPOINT_PFX ++ toString s.endpoints_placed, ENDPOINT_TYPE_1_NAME⟩
          ⟨l.bottom_left, (l.top_right.1 - detail.2 - gap (s.last_placed_index + 1), l.top_right.2), LRP_PFX, LRP_NAME⟩ = 0 from by
        unfold interWidth
        dsimp only
        rw [min_eq_right (by linarith), max_eq_left (by linarith)]
        ring]
      simp
    · subst hSTdef
      unfold posDims Detail.width Detail.height
      dsimp only
      constructor <;> linarith
    · subst hSTdef
      subst hNLdef
      unfold Detail.area Detail.width Detail.height
      dsimp only
      ring
    · subst hSTdef
      rfl
    · subst hNLdef
      rfl


theorem areaSum_triple (a b c : Detail) : areaSum [a, b, c] = a.area + b.area + c.area := by
  rw [areaSum_cons, areaSum_cons, areaSum_cons, areaSum_nil]
  ring

theorem get_normal_box_type_ne_lrp (s : GammaState) : get_normal_box_type s ≠ LRP_NAME := by
  unfold get_normal_box_type
  split <;> decide

theorem get_endpoint_type_ne_lrp (s : GammaState) : get_endpoint_type s ≠ LRP_NAME := by
  unfold get_endpoint_type
  split <;> decide

theorem endpoint_type_ne_normal_box_type (s s' : GammaState) :
    get_endpoint_type s ≠ get_normal_box_type s' := by
  unfold get_endpoint_type get_normal_box_type
  split <;> split <;> decide

/-! ### Destructuring a successful placement -/

theorem place_detail_cases {detail : ℚ × ℚ} {s s4 : GammaState} {placed p4 : List Detail}
    (hok : place_detail_in_stripe detail s placed = some (s4, p4)) :
    ∃ st, s.stripe = some st ∧
      ((s.is_stripe_horizontal = true ∧ ∃ S B E,
          S = ⟨st.bottom_left,
            (st.bottom_left.1 + detail.1, st.bottom_left.2 + detail.2),
            DETAIL_PFX ++ toString (s.last_placed_index + 1), DETAIL_NAME⟩ ∧
          B = ⟨(st.bottom_left.1, st.bottom_left.2 + detail.2),
            (st.bottom_left.1 + detail.1, st.top_right.2),
            NORMAL_BOX_PFX ++ toString (s.last_placed_index + 1), get_normal_box_type s⟩ ∧
          E = ⟨(st.bottom_left.1 + detail.1, st.bottom_left.2), st.top_right,
            ENDPOINT_PFX ++ toString s.endpoints_placed, get_endpoint_type s⟩ ∧
          s4 = { s with last_placed_index := s.last_placed_index + 1, stripe := some E, boxes := insertBox B s.boxes } ∧
          p4 = if s.update_placed_details then placed.erase st ++ [S, B, E] else placed) ∨
        (s.is_stripe_horizontal = false ∧ ∃ S B E,
          S = ⟨(st.top_right.1 - detail.2, st.bottom_left.2),
            (st.top_right.1, st.bottom_left.2 + detail.1),
            DETAIL_PFX ++ toString (s.last_placed_index + 1), DETAIL_NAME⟩ ∧
          B = ⟨st.bottom_left,
            (st.top_right.1 - detail.2, st.bottom_left.2 + detail.1),
            NORMAL_BOX_PFX ++ toString (s.last_placed_index + 1), get_normal_box_type s⟩ ∧
          E = ⟨(st.bottom_left.1, st.bottom_left.2 + detail.1), st.top_right,
            ENDPOINT_PFX ++ toString s.endpoints_placed, get_endpoint_type s⟩ ∧
          s4 = { s with last_placed_index := s.last_placed_index + 1, stripe := some E, boxes := insertBox B s.boxes } ∧
          p4 = if s.update_placed_details then placed.erase st ++ [S, B, E] else placed)) := by
  cases hst : s.stripe with
  | none =>
    simp only [place_detail_in_stripe, hst] at hok
    exact Option.noConfusion hok
  | some st =>
    simp only [place_detail_in_stripe, hst] at hok
    cases hhz : s.is_stripe_horizontal with
    | true =>
      simp only [hhz, if_true] at hok
      injection hok with h1
      injection h1 with h2 h3
      exact ⟨st, rfl, Or.inl ⟨rfl, _, _, _, rfl, rfl, rfl, h2.symm, h3.symm⟩⟩
    | false =>
      simp only [hhz, Bool.false_eq_true, if_false] at hok
      injection hok with h1
      injection h1 with h2 h3
      exact ⟨st, rfl, Or.inr ⟨rfl, _, _, _, rfl, rfl, rfl, h2.symm, h3.symm⟩⟩


theorem place_inv_finish {s s4 : GammaState} {placed : List Detail} {st S B E : Detail}
    (hpw : placed.Pairwise interZero) (hpos : ∀ d ∈ placed, posDims d)
    (hstp : st ∈ placed) (hbm : ∀ b ∈ s.boxes, b ∈ placed)
    (hbt : ∀ b ∈ s.boxes, b.detail_type ≠ LRP_NAME) (hnd : s.boxes.Nodup)
    (hsnb : st ∉ s.boxes)
    (hlsep : ∀ l, s.lrp = some l → l.detail_type = LRP_NAME)
    (hlm : ∀ l, s.lrp = some l → l ∈ placed)
    (hstt : st.detail_type ≠ LRP_NAME)
    (hlnn : s.lrp = none → False)
    (hupd : s.update_placed_details = true)
    (hSsub : subRect S st) (hBsub : subRect B st) (hEsub : subRect E st)
    (hzSB : interZero S B) (hzSE : interZero S E) (hzBE : interZero B E)
    (hSpos : posDims S) (hBpos : posDims B) (hEpos : posDims E)
    (harea : S.area + B.area + E.area = st.area)
    (hBtype : B.detail_type ≠ LRP_NAME) (hEtype : E.detail_type ≠ LRP_NAME)
    (hEneB : E ≠ B)
    (hs4b : s4.boxes = insertBox B s.boxes) (hs4l : s4.lrp = s.lrp)
    (hs4st : s4.stripe = some E) (hs4u : s4.update_placed_details = s.update_placed_details) :
    Inv s4 (placed.erase st ++ [S, B, E]) ∧
    areaSum (placed.erase st ++ [S, B, E]) = areaSum placed := by
  obtain ⟨rpw, rpos, rsum⟩ := placed_replace [S, B, E] hpw hpos hstp
    (by
      intro c hc
      rcases List.mem_cons.mp hc with rfl | hc
      · exact hSsub
      · rcases List.mem_cons.mp hc with hc2 | hc
        · subst hc2
          exact hBsub
        · rcases List.mem_cons.mp hc with hc2 | hc
          · subst hc2
            exact hEsub
          · exact absurd hc (List.not_mem_nil _))
    (by
      refine List.pairwise_cons.mpr ⟨?_, List.pairwise_cons.mpr ⟨?_, List.pairwise_singleton _ _⟩⟩
      · intro c hc
        rcases List.mem_cons.mp hc with hc2 | hc
        · subst hc2
          exact hzSB
        · rcases List.mem_cons.mp hc with hc2 | hc
          · subst hc2
            exact hzSE
          · exact absurd hc (List.not_mem_nil _)
      · intro c hc
        rcases List.mem_cons.mp hc with hc2 | hc
        · subst hc2
          exact hzBE
        · exact absurd hc (List.not_mem_nil _))
    (by
      intro c hc
      rcases List.mem_cons.mp hc with rfl | hc
      · exact hSpos
      · rcases List.mem_cons.mp hc with hc2 | hc
        · subst hc2
          exact hBpos
        · rcases List.mem_cons.mp hc with hc2 | hc
          · subst hc2
            exact hEpos
          · exact absurd hc (List.not_mem_nil _))
  have hbne : ∀ b ∈ s.boxes, b ≠ st := fun b hb heq => hsnb (heq ▸ hb)
  refine ⟨⟨rpw, rpos, ?_, ?_, ?_, ?_, ?_, ?_, ?_, ?_, ?_, ?_⟩, ?_⟩
  · intro st' hst'
    rw [hs4st] at hst'
    cases hst'
    exact List.mem_append.mpr (Or.inr (List.mem_cons_of_mem _
      (List.mem_cons_of_mem _ (List.mem_cons_self _ _))))
  · intro l hl
    rw [hs4l] at hl
    have hlne : l ≠ st := fun heq => hstt (heq ▸ hlsep l hl)
    exact List.mem_append.mpr (Or.inl ((List.mem_erase_of_ne hlne).mpr (hlm l hl)))
  · intro b hb
    rw [hs4b] at hb
    rcases mem_insertBox.mp hb with rfl | hb'
    · exact List.mem_append.mpr (Or.inr (List.mem_cons_of_mem _ (List.mem_cons_self _ _)))
    · exact List.mem_append.mpr (Or.inl ((List.mem_erase_of_ne (hbne b hb')).mpr (hbm b hb')))
  · intro l hl
    rw [hs4l] at hl
    exact Or.inl (hlsep l hl)
  · intro st' hst'
    rw [hs4st] at hst'
    cases hst'
    exact hEtype
  · intro b hb
    rw [hs4b] at hb
    rcases mem_insertBox.mp hb with rfl | hb'
    · exact hBtype
    · exact hbt b hb'
  · intro st' hst'
    rw [hs4st] at hst'
    cases hst'
    intro hmem
    rw [hs4b] at hmem
    rcases mem_insertBox.mp hmem with heq | hmem'
    · exact hEneB heq
    · exact ne_of_childRect hpw hstp (hbm E hmem') (hbne E hmem') hEsub hEpos rfl
  · rw [hs4b]
    refine nodup_insertBox ?_ hnd
    intro hmem
    exact ne_of_childRect hpw hstp (hbm B hmem) (hbne B hmem) hBsub hBpos rfl
  · intro hcon
    rw [hs4l] at hcon
    exact absurd (hlnn hcon) not_false
  · rw [hs4u]
    exact hupd
  · rw [rsum, areaSum_triple, harea]
    ring


theorem place_inv {detail : ℚ × ℚ} {s s4 : GammaState} {placed p4 : List Detail} {st : Detail}
    (h : Inv s placed) (hst : s.stripe = some st)
    (hfit1 : detail.1 < stripeExtent s.is_stripe_horizontal st)
    (hfit2 : detail.2 < stripePerp s.is_stripe_horizontal st)
    (hd1 : 0 < detail.1) (hd2 : 0 < detail.2)
    (hok : place_detail_in_stripe detail s placed = some (s4, p4)) :
    Inv s4 p4 ∧ areaSum p4 = areaSum placed := by
  obtain ⟨hpw, hpos, hsm, hlm, hbm, hsep, hstt, hbt, hsnb, hnd, hln, hupd⟩ := h
  obtain ⟨st', hst', hcase⟩ := place_detail_cases hok
  rw [hst] at hst'
  injection hst' with hst2
  subst hst2
  have hstpos := hpos st (hsm st hst)
  obtain ⟨hsw, hsh⟩ := hstpos
  unfold Detail.width at hsw
  unfold Detail.height at hsh
  have hlsep : ∀ l, s.lrp = some l → l.detail_type = LRP_NAME := by
    intro l hl
    rcases hsep l hl with h1 | ⟨h1, _⟩
    · exact h1
    · rw [hst] at h1; cases h1
  have hlnn : s.lrp = none → False := by
    intro hcon
    have h1 := (hln hcon).1
    rw [hst] at h1; cases h1
  rcases hcase with ⟨hhz, S, B, E, hS, hB, hE, hs4, hp4⟩ | ⟨hhz, S, B, E, hS, hB, hE, hs4, hp4⟩
  · simp only [stripeExtent, hhz, if_true] at hfit1
    simp only [stripePerp, hhz, if_true] at hfit2
    unfold Detail.width at hfit1
    unfold Detail.height at hfit2
    rw [hupd] at hp4
    simp only [if_true] at hp4
    subst hp4
    have hEneB : E ≠ B := by
      intro heq
      have := congrArg Detail.detail_type heq
      rw [hE, hB] at this
      exact endpoint_type_ne_normal_box_type s s this
    refine place_inv_finish hpw hpos (hsm st hst) hbm hbt hnd (hsnb st hst) hlsep hlm
      (hstt st hst) hlnn hupd ?_ ?_ ?_ ?_ ?_ ?_ ?_ ?_ ?_ ?_ ?_ ?_ hEneB
      (by rw [hs4]) (by rw [hs4]) (by rw [hs4]) (by rw [hs4])
    · rw [hS]; unfold subRect; dsimp only
      exact ⟨le_refl _, by linarith, le_refl _, by linarith⟩
    · rw [hB]; unfold subRect; dsimp only
      exact ⟨le_refl _, by linarith, by linarith, le_refl _⟩
    · rw [hE]; unfold subRect; dsimp only
      exact ⟨by linarith, le_refl _, le_refl _, le_refl _⟩
    · rw [hS, hB]; unfold interZero interArea
      rw [show interHeight
          ⟨st.bottom_left, (st.bottom_left.1 + detail.1, st.bottom_left.2 + detail.2), DETAIL_PFX ++ toString (s.last_placed_index + 1), DETAIL_NAME⟩
          ⟨(st.bottom_left.1, st.bottom_left.2 + detail.2), (st.bottom_left.1 + detail.1, st.top_right.2), NORMAL_BOX_PFX ++ toString (s.last_placed_index + 1), get_normal_box_type s⟩ = 0 from by
        unfold interHeight; dsimp only
        rw [min_eq_left (by linarith), max_eq_right (by linarith)]
        ring]
      simp
    · rw [hS, hE]; unfold interZero interArea
      rw [show interWidth
          ⟨st.bottom_left, (st.bottom_left.1 + detail.1, st.bottom_left.2 + detail.2), DETAIL_PFX ++ toString (s.last_placed_index + 1), DETAIL_NAME⟩
          ⟨(st.bottom_left.1 + detail.1, st.bottom_left.2), st.top_right, ENDPOINT_PFX ++ toString s.endpoints_placed, get_endpoint_type s⟩ = 0 from by
        unfold interWidth; dsimp only
        rw [min_eq_left (by linarith), max_eq_right (by linarith)]
        ring]
      simp
    · rw [hB, hE]; unfold interZero interArea
      rw [show interWidth
          ⟨(st.bottom_left.1, st.bottom_left.2 + detail.2), (st.bottom_left.1 + detail.1, st.top_right.2), NORMAL_BOX_PFX ++ toString (s.last_placed_index + 1), get_normal_box_type s⟩
          ⟨(st.bottom_left.1 + detail.1, st.bottom_left.2), st.top_right, ENDPOINT_PFX ++ toString s.endpoints_placed, get_endpoint_type s⟩ = 0 from by
        unfold interWidth; dsimp only
        rw [min_eq_left (by linarith), max_eq_right (by linarith)]
        ring]
      simp
    · rw [hS]; unfold posDims Detail.width Detail.height; dsimp only
      constructor <;> linarith
    · rw [hB]; unfold posDims Detail.width Detail.height; dsimp only
      constructor <;> linarith
    · rw [hE]; unfold posDims Detail.width Detail.height; dsimp only
      constructor <;> linarith
    · rw [hS, hB, hE]; unfold Detail.area Detail.width Detail.height; dsimp only
      ring
    · rw [hB]
      exact get_normal_box_type_ne_lrp s
    · rw [hE]
      exact get_endpoint_type_ne_lrp s
  · simp only [stripeExtent, hhz, Bool.false_eq_true, if_false] at hfit1
    simp only [stripePerp, hhz, Bool.false_eq_true, if_false] at hfit2
    unfold Detail.height at hfit1
    unfold Detail.width at hfit2
    rw [hupd] at hp4
    simp only [if_true] at hp4
    subst hp4
    have hEneB : E ≠ B := by
      intro heq
      have := congrArg Detail.detail_type heq
      rw [hE, hB] at this
      exact endpoint_type_ne_normal_box_type s s this
    refine place_inv_finish hpw hpos (hsm st hst) hbm hbt hnd (hsnb st hst) hlsep hlm
      (hstt st hst) hlnn hupd ?_ ?_ ?_ ?_ ?_ ?_ ?_ ?_ ?_ ?_ ?_ ?_ hEneB
      (by rw [hs4]) (by rw [hs4]) (by rw [hs4]) (by rw [hs4])
    · rw [hS]; unfold subRect; dsimp only
      exact ⟨by linarith, le_refl _, le_refl _, by linarith⟩
    · rw [hB]; unfold subRect; dsimp only
      exact ⟨le_refl _, by linarith, le_refl _, by linarith⟩
    · rw [hE]; unfold subRect; dsimp only
      exact ⟨le_refl _, le_refl _, by linarith, le_refl _⟩
    · rw [hS, hB]; unfold interZero interArea
      rw [show interWidth
          ⟨(st.top_right.1 - detail.2, st.bottom_left.2), (st.top_right.1, st.bottom_left.2 + detail.1), DETAIL_PFX ++ toString (s.last_placed_index + 1), DETAIL_NAME⟩
          ⟨st.bottom_left, (st.top_right.1 - detail.2, st.bottom_left.2 + detail.1), NORMAL_BOX_PFX ++ toString (s.last_placed_index + 1), get_normal_box_type s⟩ = 0 from by
        unfold interWidth; dsimp only
        rw [min_eq_right (by linarith), max_eq_left (by linarith)]
        ring]
      simp
    · rw [hS, hE]; unfold interZero interArea
      rw [show interHeight
          ⟨(st.top_right.1 - detail.2, st.bottom_left.2), (st.top_right.1, st.bottom_left.2 + detail.1), DETAIL_PFX ++ toString (s.last_placed_index + 1), DETAIL_NAME⟩
          ⟨(st.bottom_left.1, st.bottom_left.2 + detail.1), st.top_right, ENDPOINT_PFX ++ toString s.endpoints_placed, get_endpoint_type s⟩ = 0 from by
        unfold interHeight; dsimp only
        rw [min_eq_left (by linarith), max_eq_right (by linarith)]
        ring]
      simp
    · rw [hB, hE]; unfold interZero interArea
      rw [show interHeight
          ⟨st.bottom_left, (st.top_right.1 - detail.2, st.bottom_left.2 + detail.1), NORMAL_BOX_PFX ++ toString (s.last_placed_index + 1), get_normal_box_type s⟩
          ⟨(st.bottom_left.1, st.bottom_left.2 + detail.1), st.top_right, ENDPOINT_PFX ++ toString s.endpoints_placed, get_endpoint_type s⟩ = 0 from by
        unfold interHeight; dsimp only
        rw [min_eq_left (by linarith), max_eq_right (by linarith)]
        ring]
      simp
    · rw [hS]; unfold posDims Detail.width Detail.height; dsimp only
      constructor <;> linarith
    · rw [hB]; unfold posDims Detail.width Detail.height; dsimp only
      constructor <;> linarith
    · rw [hE]; unfold posDims Detail.width Detail.height; dsimp only
      constructor <;> linarith
    · rw [hS, hB, hE]; unfold Detail.area Detail.width Detail.height; dsimp only
      ring
    · rw [hB]
      exact get_normal_box_type_ne_lrp s
    · rw [hE]
      exact get_endpoint_type_ne_lrp s


theorem choose_inv {gap : ℕ → ℚ} {detail : ℚ × ℚ} {s s3 : GammaState} {placed p3 : List Detail}
    (h : Inv s placed) (hok : choose_strip gap detail s placed = .ok s3 p3)
    (hnl : ∀ nl, s3.lrp = some nl → posDims nl)
    (hd2 : 0 < detail.2) (hg : 0 < gap (s.last_placed_index + 1)) :
    Inv s3 p3 ∧ areaSum p3 = areaSum placed := by
  obtain ⟨hpw, hpos, hsm, hlm, hbm, hsep, hstt, hbt, hsnb, hnd, hln, hupd⟩ := h
  cases hstr : s.stripe with
  | some st =>
    simp only [choose_strip, hstr] at hok
    injection hok with h1 h2
    subst h1
    subst h2
    exact ⟨⟨hpw, hpos, hsm, hlm, hbm, hsep, hstt, hbt, hsnb, hnd, hln, hupd⟩, rfl⟩
  | none =>
    simp only [choose_strip, hstr] at hok
    by_cases hpool : detail.2 + gap (s.last_placed_index + 1) ≤ maxBoxSize s.boxes
    · rw [if_pos hpool] at hok
      cases hbx : s.boxes with
      | nil =>
        simp only [choose_strip_from_box, hbx] at hok
        exact StepResult.noConfusion hok
      | cons b rest =>
        simp only [choose_strip_from_box, hbx] at hok
        injection hok with h1 h2
        subst h2
        refine ⟨?_, rfl⟩
        rw [← h1]
        have hbmem : b ∈ s.boxes := by rw [hbx]; exact List.mem_cons_self _ _
        have hrest_sub : ∀ x ∈ rest, x ∈ s.boxes := by
          intro x hx
          rw [hbx]
          exact List.mem_cons_of_mem _ hx
        have hnd2 : (b :: rest).Nodup := by rw [← hbx]; exact hnd
        refine ⟨hpw, hpos, ?_, ?_, ?_, ?_, ?_, ?_, ?_, ?_, ?_, ?_⟩
        · intro st hst
          simp only at hst
          cases hst
          exact hbm b hbmem
        · intro l hl
          simp only at hl
          exact hlm l hl
        · intro x hx
          simp only [List.erase_cons_head] at hx
          exact hbm x (hrest_sub x hx)
        · intro l hl
          simp only at hl
          rcases hsep l hl with h2 | ⟨_, h2⟩
          · exact Or.inl h2
          · rw [hbx] at h2
            cases h2
        · intro st hst
          simp only at hst
          cases hst
          exact hbt b hbmem
        · intro x hx
          simp only [List.erase_cons_head] at hx
          exact hbt x (hrest_sub x hx)
        · intro st hst
          simp only at hst
          cases hst
          simp only [List.erase_cons_head]
          exact (List.nodup_cons.mp hnd2).1
        · simp only [List.erase_cons_head]
          exact (List.nodup_cons.mp hnd2).2
        · intro hcon
          simp only at hcon
          have h2 := (hln hcon).2
          rw [hbx] at h2
          cases h2
        · exact hupd
    · rw [if_neg hpool] at hok
      refine cut_inv ?_ hok hnl hd2 hg
      refine ⟨hpw, hpos, ?_, hlm, hbm, ?_, ?_, hbt, ?_, hnd, ?_, hupd⟩
      · intro st hst
        exact Option.noConfusion hst
      · intro l hl
        rcases hsep l hl with h1 | ⟨_, h2⟩
        · exact Or.inl h1
        · exact Or.inr ⟨rfl, h2⟩
      · intro st hst
        exact Option.noConfusion hst
      · intro st hst
        exact Option.noConfusion hst
      · intro hc
        exact ⟨rfl, (hln hc).2⟩

theorem check_stripe_size_frame (gap : ℕ → ℚ) (detail : ℚ × ℚ) (s : GammaState) :
    (check_stripe_size gap detail s).last_placed_index = s.last_placed_index ∧
    (check_stripe_size gap detail s).lrp = s.lrp := by
  cases hst : s.stripe with
  | none => rw [check_stripe_size_none hst]; exact ⟨rfl, rfl⟩
  | some st =>
    by_cases hc : (s.is_stripe_horizontal = true ∧
        detail.1 + gap s.stripe_first_detail_index > st.width) ∨
      (s.is_stripe_horizontal = false ∧ detail.1 + gap s.stripe_first_detail_index > st.height)
    · rw [check_stripe_size_close hst hc]; exact ⟨rfl, rfl⟩
    · rw [check_stripe_size_keep hst hc]; exact ⟨rfl, rfl⟩

theorem check_if_lrp_none_frame {s s1 : GammaState} {placed : List Detail}
    (hb : check_if_lrp_none s placed = some s1) :
    s1.last_placed_index = s.last_placed_index ∧ s1.stripe = s.stripe ∧
    s1.boxes = s.boxes ∧ s1.update_placed_details = s.update_placed_details := by
  unfold check_if_lrp_none at hb
  cases hl : s.lrp with
  | some l =>
    rw [hl] at hb
    cases hb
    exact ⟨rfl, rfl, rfl, rfl⟩
  | none =>
    rw [hl] at hb
    cases hp : placed.head? with
    | none => rw [hp] at hb; cases hb
    | some d =>
      rw [hp] at hb
      cases hb
      exact ⟨rfl, rfl, rfl, rfl⟩

theorem choose_strip_ok_stripe {gap : ℕ → ℚ} {detail : ℚ × ℚ} {s s3 : GammaState}
    {placed p3 : List Detail} (hok : choose_strip gap detail s placed = .ok s3 p3) :
    ∃ st, s3.stripe = some st := by
  cases hstr : s.stripe with
  | some st =>
    simp only [choose_strip, hstr] at hok
    injection hok with h1 _
    exact ⟨st, by rw [← h1, hstr]⟩
  | none =>
    simp only [choose_strip, hstr] at hok
    by_cases hpool : detail.2 + gap (s.last_placed_index + 1) ≤ maxBoxSize s.boxes
    · rw [if_pos hpool] at hok
      cases hbx : s.boxes with
      | nil =>
        simp only [choose_strip_from_box, hbx] at hok
        exact StepResult.noConfusion hok
      | cons b rest =>
        simp only [choose_strip_from_box, hbx] at hok
        injection hok with h1 _
        exact ⟨b, by rw [← h1]⟩
    · rw [if_neg hpool] at hok
      obtain ⟨l, _, _, _, hcase⟩ := cut_new_strip_cases hok
      rcases hcase with ⟨_, ST, _, _, _, hs3, _⟩ | ⟨_, ST, _, _, _, hs3, _⟩ <;>
        exact ⟨ST, by rw [hs3]⟩

theorem step_inv {gap : ℕ → ℚ} {detail : ℚ × ℚ} {s s' : GammaState} {placed p' : List Detail}
    (h : Inv s placed) (hok : place_next gap detail s placed = .ok s' p')
    (hfit : ∀ s3 p3 st, afterChoose gap detail s placed = .ok s3 p3 → s3.stripe = some st →
        detail.1 < stripeExtent s3.is_stripe_horizontal st ∧
        detail.2 < stripePerp s3.is_stripe_horizontal st)
    (hlrp : ∀ s3 p3 nl, afterChoose gap detail s placed = .ok s3 p3 → s3.lrp = some nl →
        posDims nl)
    (hd1 : 0 < detail.1) (hd2 : 0 < detail.2) (hg : ∀ i, 1 ≤ i → 0 < gap i) :
    Inv s' p' ∧ areaSum p' = areaSum placed := by
  cases hb : check_if_lrp_none s placed with
  | none =>
    simp only [place_next, hb] at hok
    exact StepResult.noConfusion hok
  | some s1 =>
    simp only [place_next, hb] at hok
    have h1 : Inv s1 placed := boot_inv h hb
    have h2 : Inv (check_stripe_size gap detail s1) placed := css_inv h1
    cases hc : choose_strip gap detail (check_stripe_size gap detail s1) placed with
    | crash =>
      simp only [hc] at hok
      exact StepResult.noConfusion hok
    | err s3 p3 =>
      simp only [hc] at hok
      exact StepResult.noConfusion hok
    | ok s3 p3 =>
      simp only [hc] at hok
      have hAC : afterChoose gap detail s placed = .ok s3 p3 := by
        simp only [afterChoose, hb]
        exact hc
      have hglocal : 0 < gap ((check_stripe_size gap detail s1).last_placed_index + 1) :=
        hg _ (Nat.le_add_left _ _)
      have h3 := choose_inv h2 hc (fun nl hnl' => hlrp s3 p3 nl hAC hnl') hd2 hglocal
      obtain ⟨st, hst⟩ := choose_strip_ok_stripe hc
      obtain ⟨hfit1, hfit2⟩ := hfit s3 p3 st hAC hst
      cases hp : place_detail_in_stripe detail s3 p3 with
      | none =>
        simp only [hp] at hok
        exact StepResult.noConfusion hok
      | some pair =>
        obtain ⟨s4, p4⟩ := pair
        simp only [hp] at hok
        injection hok with h4 h5
        subst h4
        subst h5
        have h6 := place_inv h3.1 hst hfit1 hfit2 hd1 hd2 hp
        exact ⟨h6.1, h6.2.trans h3.2⟩

theorem run_inv {gap : ℕ → ℚ} {inputs : List (ℚ × ℚ)} :
    ∀ {s : GammaState} {placed : List Detail} {s' : GammaState} {p' : List Detail},
    Inv s placed → FitRun gap inputs s placed →
    (∀ d ∈ inputs, 0 < d.1 ∧ 0 < d.2) → (∀ i, 1 ≤ i → 0 < gap i) →
    runPlace gap inputs s placed = some (s', p') →
    Inv s' p' ∧ areaSum p' = areaSum placed := by
  induction inputs with
  | nil =>
    intro s placed s' p' h _ _ _ hrun
    simp only [runPlace] at hrun
    injection hrun with h1
    injection h1 with h2 h3
    subst h2
    subst h3
    exact ⟨h, rfl⟩
  | cons d rest ih =>
    intro s placed s' p' h hfr hpin hg hrun
    simp only [runPlace] at hrun
    obtain ⟨hfit, hlrp, hnext⟩ := hfr
    cases hpn : place_next gap d s placed with
    | ok s1 p1 =>
      rw [hpn] at hrun
      have hd := hpin d (List.mem_cons_self _ _)
      have hstep := step_inv h hpn hfit hlrp hd.1 hd.2 hg
      have hrest := ih hstep.1 (hnext s1 p1 hpn)
        (fun d' hd' => hpin d' (List.mem_cons_of_mem _ hd')) hg hrun
      exact ⟨hrest.1, hrest.2.trans hstep.2⟩
    | err s1 p1 =>
      rw [hpn] at hrun
      exact Option.noConfusion hrun
    | crash =>
      rw [hpn] at hrun
      exact Option.noConfusion hrun


theorem boot_lrp_some {s s1 : GammaState} {placed : List Detail}
    (hb : check_if_lrp_none s placed = some s1) : ∃ l, s1.lrp = some l := by
  unfold check_if_lrp_none at hb
  cases hl : s.lrp with
  | some l =>
    rw [hl] at hb
    cases hb
    exact ⟨l, hl⟩
  | none =>
    rw [hl] at hb
    cases hp : placed.head? with
    | none => rw [hp] at hb; cases hb
    | some d =>
      rw [hp] at hb
      cases hb
      exact ⟨d, rfl⟩

theorem get_endpoint_type_congr {s s' : GammaState} (h : s.stripe_from = s'.stripe_from) :
    get_endpoint_type s = get_endpoint_type s' := by
  unfold get_endpoint_type
  rw [h]

/-- Claim C3: `place_next` raises the packing-infeasible error exactly when control
reaches the LRP-cut step (no stripe open after the capacity check and no pool box
suffices) and the detail plus required gap does not fit in the LRP; no other branch
raises, and on the error no detail is placed (the placed list and the last placed
index are unchanged). -/
theorem c3_error_iff {gap : ℕ → ℚ} {detail : ℚ × ℚ} {s s1 s2 : GammaState}
    {placed : List Detail}
    (hb : check_if_lrp_none s placed = some s1)
    (hs2 : check_stripe_size gap detail s1 = s2)
    (hd1 : 0 < detail.1) (hd2 : 0 < detail.2) (hg : ∀ i, 1 ≤ i → 0 < gap i) :
    (isErr (place_next gap detail s placed) = true ↔
      (s2.stripe = none ∧
        detail.2 + gap (s2.last_placed_index + 1) > maxBoxSize s2.boxes ∧
        (∀ l, s2.lrp = some l →
          detail.2 + gap (s2.last_placed_index + 1) > max l.width l.height ∨
          detail.1 + gap (s2.last_placed_index + 1) > min l.width l.height))) ∧
    (∀ se pe, place_next gap detail s placed = .err se pe →
      pe = placed ∧ se.last_placed_index = s.last_placed_index) := by
  obtain ⟨l, hl1⟩ := boot_lrp_some hb
  have hfr := check_stripe_size_frame gap detail s1
  have hbfr := check_if_lrp_none_frame hb
  have hl2 : s2.lrp = some l := by rw [← hs2, hfr.2]; exact hl1
  have hlast2 : s2.last_placed_index = s.last_placed_index := by
    rw [← hs2, hfr.1, hbfr.1]
  have hgl : 0 < gap (s2.last_placed_index + 1) := hg _ (Nat.le_add_left _ _)
  cases hstr : s2.stripe with
  | some st =>
    have hchoose : choose_strip gap detail s2 placed = .ok s2 placed := by
      simp only [choose_strip, hstr]
    have hsome : ∃ s4 p4, place_detail_in_stripe detail s2 placed = some (s4, p4) := by
      cases hp : place_detail_in_stripe detail s2 placed with
      | none =>
        simp only [place_detail_in_stripe, hstr] at hp
        exact Option.noConfusion hp
      | some pair =>
        obtain ⟨s4, p4⟩ := pair
        exact ⟨s4, p4, rfl⟩
    obtain ⟨s4, p4, hp⟩ := hsome
    have hpn : place_next gap detail s placed = .ok s4 p4 := by
      simp only [place_next, hb, hs2, hchoose, hp]
    rw [hpn]
    constructor
    · constructor
      · intro hcon
        simp only [isErr] at hcon
        exact Bool.noConfusion hcon
      · intro hrhs
        exact absurd hrhs.1 (by simp)
    · intro se pe hcon
      exact StepResult.noConfusion hcon
  | none =>
    by_cases hpool : detail.2 + gap (s2.last_placed_index + 1) ≤ maxBoxSize s2.boxes
    · cases hbx : s2.boxes with
      | nil =>
        exfalso
        rw [hbx] at hpool
        simp only [maxBoxSize] at hpool
        linarith
      | cons b rest =>
        rw [hbx] at hpool
        have hchoose : choose_strip gap detail s2 placed = .ok { s2 with stripe_first_detail_index := s2.last_placed_index + 1, stripe_from := some b.detail_type, stripe := some b, boxes := (b :: rest).erase b, is_stripe_horizontal := decide (b.height ≤ b.width) } placed := by
          simp only [choose_strip, hstr, choose_strip_from_box, hbx]
          rw [if_pos hpool]
        have hsome : ∃ s4 p4, place_detail_in_stripe detail { s2 with stripe_first_detail_index := s2.last_placed_index + 1, stripe_from := some b.detail_type, stripe := some b, boxes := (b :: rest).erase b, is_stripe_horizontal := decide (b.height ≤ b.width) } placed = some (s4, p4) := by
          cases hp : place_detail_in_stripe detail { s2 with stripe_first_detail_index := s2.last_placed_index + 1, stripe_from := some b.detail_type, stripe := some b, boxes := (b :: rest).erase b, is_stripe_horizontal := decide (b.height ≤ b.width) } placed with
          | none =>
            simp only [place_detail_in_stripe] at hp
            exact Option.noConfusion hp
          | some pair =>
            obtain ⟨s4, p4⟩ := pair
            exact ⟨s4, p4, rfl⟩
        obtain ⟨s4, p4, hp⟩ := hsome
        have hpn : place_next gap detail s placed = .ok s4 p4 := by
          simp only [place_next, hb, hs2, hchoose, hp]
        rw [hpn]
        constructor
        · constructor
          · intro hcon
            simp only [isErr] at hcon
            exact Bool.noConfusion hcon
          · intro hrhs
            linarith [hrhs.2.1]
        · intro se pe hcon
          exact StepResult.noConfusion hcon
    · have hchoose : choose_strip gap detail s2 placed = cut_new_strip gap detail { s2 with stripe_first_detail_index := s2.last_placed_index + 1 } placed := by
        simp only [choose_strip, hstr]
        rw [if_neg hpool]
      by_cases hcond : detail.2 + gap (s2.last_placed_index + 1) > max l.width l.height ∨
          detail.1 + gap (s2.last_placed_index + 1) > min l.width l.height
      · have hcut : cut_new_strip gap detail { s2 with stripe_first_detail_index := s2.last_placed_index + 1 } placed = .err { s2 with stripe_first_detail_index := s2.last_placed_index + 1, stripe_from := some l.detail_type } placed := by
          simp only [cut_new_strip, hl2]
          rw [if_pos hcond]
        have hpn : place_next gap detail s placed = .err { s2 with stripe_first_detail_index := s2.last_placed_index + 1, stripe_from := some l.detail_type } placed := by
          simp only [place_next, hb, hs2, hchoose, hcut]
        rw [hpn]
        constructor
        · constructor
          · intro _
            refine ⟨rfl, by linarith [not_le.mp hpool], ?_⟩
            intro l2 hlx
            rw [hl2] at hlx
            injection hlx with hlx2
            subst hlx2
            exact hcond
          · intro _
            rfl
        · intro se pe hcon
          injection hcon with h1 h2
          subst h1
          subst h2
          exact ⟨rfl, hlast2⟩
      · have hcutok : ∃ sc pc, cut_new_strip gap detail { s2 with stripe_first_detail_index := s2.last_placed_index + 1 } placed = .ok sc pc := by
          cases hres : cut_new_strip gap detail { s2 with stripe_first_detail_index := s2.last_placed_index + 1 } placed with
          | ok sc pc => exact ⟨sc, pc, rfl⟩
          | err sc pc =>
            exfalso
            simp only [cut_new_strip, hl2] at hres
            rw [if_neg hcond] at hres
            exact StepResult.noConfusion hres
          | crash =>
            exfalso
            simp only [cut_new_strip, hl2] at hres
            rw [if_neg hcond] at hres
            exact StepResult.noConfusion hres
        obtain ⟨sc, pc, hcut⟩ := hcutok
        obtain ⟨stc, hstc⟩ := @choose_strip_ok_stripe gap detail s2 sc placed pc
          (by rw [hchoose]; exact hcut)
        have hsome : ∃ s4 p4, place_detail_in_stripe detail sc pc = some (s4, p4) := by
          cases hp : place_detail_in_stripe detail sc pc with
          | none =>
            simp only [place_detail_in_stripe, hstc] at hp
            exact Option.noConfusion hp
          | some pair =>
            obtain ⟨s4, p4⟩ := pair
            exact ⟨s4, p4, rfl⟩
        obtain ⟨s4, p4, hp⟩ := hsome
        have hpn : place_next gap detail s placed = .ok s4 p4 := by
          simp only [place_next, hb, hs2, hchoose, hcut, hp]
        rw [hpn]
        constructor
        · constructor
          · intro hcon
            simp only [isErr] at hcon
            exact Bool.noConfusion hcon
          · intro hrhs
            exact absurd (hrhs.2.2 l hl2) hcond
        · intro se pe hcon
          exact StepResult.noConfusion hcon


/-- Claim C4: exact placement corner arithmetic.  In horizontal orientation the
placed detail, normal box and endpoint occupy exactly the rectangles anchored at
the stripe bottom-left corner described by the spec; in vertical orientation the
layout is the transpose anchored at the stripe top-right corner. -/
theorem c4_placement_arithmetic {detail : ℚ × ℚ} {s : GammaState} {placed : List Detail}
    {st : Detail} (hst : s.stripe = some st) :
    (s.is_stripe_horizontal = true →
      place_detail_in_stripe detail s placed = some ({ s with last_placed_index := s.last_placed_index + 1, stripe := some ⟨(st.bottom_left.1 + detail.1, st.bottom_left.2), st.top_right, ENDPOINT_PFX ++ toString s.endpoints_placed, get_endpoint_type s⟩, boxes := insertBox ⟨(st.bottom_left.1, st.bottom_left.2 + detail.2), (st.bottom_left.1 + detail.1, st.top_right.2), NORMAL_BOX_PFX ++ toString (s.last_placed_index + 1), get_normal_box_type s⟩ s.boxes }, if s.update_placed_details then placed.erase st ++ [⟨st.bottom_left, (st.bottom_left.1 + detail.1, st.bottom_left.2 + detail.2), DETAIL_PFX ++ toString (s.last_placed_index + 1), DETAIL_NAME⟩, ⟨(st.bottom_left.1, st.bottom_left.2 + detail.2), (st.bottom_left.1 + detail.1, st.top_right.2), NORMAL_BOX_PFX ++ toString (s.last_placed_index + 1), get_normal_box_type s⟩, ⟨(st.bottom_left.1 + detail.1, st.bottom_left.2), st.top_right, ENDPOINT_PFX ++ toString s.endpoints_placed, get_endpoint_type s⟩] else placed)) ∧
    (s.is_stripe_horizontal = false →
      place_detail_in_stripe detail s placed = some ({ s with last_placed_index := s.last_placed_index + 1, stripe := some ⟨(st.bottom_left.1, st.bottom_left.2 + detail.1), st.top_right, ENDPOINT_PFX ++ toString s.endpoints_placed, get_endpoint_type s⟩, boxes := insertBox ⟨st.bottom_left, (st.top_right.1 - detail.2, st.bottom_left.2 + detail.1), NORMAL_BOX_PFX ++ toString (s.last_placed_index + 1), get_normal_box_type s⟩ s.boxes }, if s.update_placed_details then placed.erase st ++ [⟨(st.top_right.1 - detail.2, st.bottom_left.2), (st.top_right.1, st.bottom_left.2 + detail.1), DETAIL_PFX ++ toString (s.last_placed_index + 1), DETAIL_NAME⟩, ⟨st.bottom_left, (st.top_right.1 - detail.2, st.bottom_left.2 + detail.1), NORMAL_BOX_PFX ++ toString (s.last_placed_index + 1), get_normal_box_type s⟩, ⟨(st.bottom_left.1, st.bottom_left.2 + detail.1), st.top_right, ENDPOINT_PFX ++ toString s.endpoints_placed, get_endpoint_type s⟩] else placed)) := by
  constructor
  · intro hhz
    simp only [place_detail_in_stripe, hst, hhz, if_true]
  · intro hhz
    simp only [place_detail_in_stripe, hst, hhz, Bool.false_eq_true, if_false]

/-- Claim C6: with a stripe open, the stripe is closed (pushed into the pool,
stripe reference cleared, endpoint count incremented by one) exactly when
`detail.1` plus the gap computed from `stripe_first_detail_index` exceeds the
stripe extent along the placement axis; otherwise the state is unchanged. -/
theorem c6_capacity_check {gap : ℕ → ℚ} {detail : ℚ × ℚ} {s : GammaState} {st : Detail}
    (hst : s.stripe = some st) :
    (check_stripe_size gap detail s = { s with boxes := insertBox st s.boxes, stripe := none, endpoints_placed := s.endpoints_placed + 1 } ↔
      detail.1 + gap s.stripe_first_detail_index > stripeExtent s.is_stripe_horizontal st) ∧
    (check_stripe_size gap detail s = s ↔
      ¬detail.1 + gap s.stripe_first_detail_index > stripeExtent s.is_stripe_horizontal st) := by
  have hcond_iff : ((s.is_stripe_horizontal = true ∧
        detail.1 + gap s.stripe_first_detail_index > st.width) ∨
      (s.is_stripe_horizontal = false ∧
        detail.1 + gap s.stripe_first_detail_index > st.height)) ↔
      detail.1 + gap s.stripe_first_detail_index > stripeExtent s.is_stripe_horizontal st := by
    cases hh : s.is_stripe_horizontal <;> simp [stripeExtent, hh]
  constructor
  · constructor
    · intro heq
      by_contra hno
      rw [← hcond_iff] at hno
      rw [check_stripe_size_keep hst hno] at heq
      have hpr := congrArg GammaState.stripe heq
      rw [hst] at hpr
      exact Option.noConfusion hpr
    · intro hc
      exact check_stripe_size_close hst (hcond_iff.mpr hc)
  · constructor
    · intro heq hc
      rw [check_stripe_size_close hst (hcond_iff.mpr hc)] at heq
      have hpr := congrArg GammaState.stripe heq
      rw [hst] at hpr
      exact Option.noConfusion hpr.symm
    · intro hc
      rw [← hcond_iff] at hc
      exact check_stripe_size_keep hst hc

/-- Claim C5: LRP-cut geometry.  When a stripe is cut from the LRP, the
orientation is horizontal exactly when `width ≤ height`, the stripe is a band of
thickness `detail.2` plus the gap at index `last_placed_index + 1` taken from the
bottom edge (horizontal) or right edge (vertical), and the new LRP occupies
exactly the set complement of the band inside the old LRP. -/
theorem c5_cut_geometry {gap : ℕ → ℚ} {detail : ℚ × ℚ} {s s1 : GammaState}
    {placed p1 : List Detail} {l ST NL : Detail}
    (hl : s.lrp = some l) (hok : cut_new_strip gap detail s placed = .ok s1 p1)
    (hst : s1.stripe = some ST) (hnl : s1.lrp = some NL)
    (hd2 : 0 < detail.2) (hg : 0 ≤ gap (s.last_placed_index + 1)) :
    (s1.is_stripe_horizontal = true ↔ l.width ≤ l.height) ∧
    (s1.is_stripe_horizontal = true →
      ST.bottom_left = l.bottom_left ∧
      ST.top_right = (l.top_right.1, l.bottom_left.2 + detail.2 + gap (s.last_placed_index + 1)) ∧
      ST.height = detail.2 + gap (s.last_placed_index + 1)) ∧
    (s1.is_stripe_horizontal = false →
      ST.bottom_left = (l.top_right.1 - detail.2 - gap (s.last_placed_index + 1), l.bottom_left.2) ∧
      ST.top_right = l.top_right ∧
      ST.width = detail.2 + gap (s.last_placed_index + 1)) ∧
    region NL = region l \ region ST := by
  obtain ⟨l2, hl2, hf1, hf2, hcase⟩ := cut_new_strip_cases hok
  rw [hl] at hl2
  injection hl2 with hl3
  subst hl3
  rcases hcase with ⟨hwh, ST2, NL2, hST2, hNL2, hs1, hp1⟩ | ⟨hwh, ST2, NL2, hST2, hNL2, hs1, hp1⟩
  · have hhz : s1.is_stripe_horizontal = true := by rw [hs1]
    have hstX : ST = ST2 := by
      rw [hs1] at hst
      simp only at hst
      injection hst with h2
      exact h2.symm
    have hnlX : NL = NL2 := by
      rw [hs1] at hnl
      simp only at hnl
      injection hnl with h2
      exact h2.symm
    subst hstX
    subst hnlX
    subst hST2
    subst hNL2
    refine ⟨iff_of_true hhz hwh, ?_, ?_, ?_⟩
    · intro _
      refine ⟨rfl, rfl, ?_⟩
      unfold Detail.height
      dsimp only
      ring
    · intro hcon
      rw [hhz] at hcon
      exact Bool.noConfusion hcon
    · ext p
      simp only [region, Set.mem_setOf_eq, Set.mem_diff]
      constructor
      · intro ⟨hx1, hx2, hy1, hy2⟩
        exact ⟨⟨hx1, hx2, by linarith, hy2⟩, fun ⟨_, _, _, hy4⟩ => by linarith⟩
      · intro ⟨⟨hx1, hx2, hy1, hy2⟩, hnot⟩
        refine ⟨hx1, hx2, ?_, hy2⟩
        by_contra hy
        push_neg at hy
        exact hnot ⟨hx1, hx2, hy1, hy⟩
  · have hhz : s1.is_stripe_horizontal = false := by rw [hs1]
    have hstX : ST = ST2 := by
      rw [hs1] at hst
      simp only at hst
      injection hst with h2
      exact h2.symm
    have hnlX : NL = NL2 := by
      rw [hs1] at hnl
      simp only at hnl
      injection hnl with h2
      exact h2.symm
    subst hstX
    subst hnlX
    subst hST2
    subst hNL2
    refine ⟨iff_of_false (by rw [hhz]; exact Bool.noConfusion) hwh, ?_, ?_, ?_⟩
    · intro hcon
      rw [hhz] at hcon
      exact Bool.noConfusion hcon
    · intro _
      refine ⟨rfl, rfl, ?_⟩
      unfold Detail.width
      dsimp only
      ring
    · ext p
      simp only [region, Set.mem_setOf_eq, Set.mem_diff]
      constructor
      · intro ⟨hx1, hx2, hy1, hy2⟩
        exact ⟨⟨hx1, by linarith, hy1, hy2⟩, fun ⟨hx3, _, _, _⟩ => by linarith⟩
      · intro ⟨⟨hx1, hx2, hy1, hy2⟩, hnot⟩
        refine ⟨hx1, ?_, hy1, hy2⟩
        by_contra hx
        push_neg at hx
        exact hnot ⟨hx, hx2, hy1, hy2⟩

/-- Claim C7: stripe acquisition.  With no stripe open, `stripe_first_detail_index`
becomes `last_placed_index + 1`; the pool path is taken exactly when `detail.2`
plus the recomputed gap is at most the min-side of the best pool entry (or -1 on
an empty pool); the pool path pops exactly the entry maximizing the min side and
orients it horizontally exactly when `width ≥ height`; otherwise an LRP cut is
attempted even when the pool is non-empty. -/
theorem c7_stripe_acquisition {gap : ℕ → ℚ} {detail : ℚ × ℚ} {s : GammaState}
    {placed : List Detail}
    (hstr : s.stripe = none)
    (hsorted : s.boxes.Pairwise (fun a b => Detail.minSide b ≤ Detail.minSide a))
    (hd2 : 0 < detail.2) (hg : 0 < gap (s.last_placed_index + 1)) :
    (s.boxes = [] → maxBoxSize s.boxes = -1) ∧
    (∀ b ∈ s.boxes, Detail.minSide b ≤ maxBoxSize s.boxes) ∧
    (detail.2 + gap (s.last_placed_index + 1) ≤ maxBoxSize s.boxes →
      ∃ b rest, s.boxes = b :: rest ∧
        (∀ b2 ∈ s.boxes, Detail.minSide b2 ≤ Detail.minSide b) ∧
        choose_strip gap detail s placed = .ok { s with stripe_first_detail_index := s.last_placed_index + 1, stripe_from := some b.detail_type, stripe := some b, boxes := rest, is_stripe_horizontal := decide (b.height ≤ b.width) } placed) ∧
    (¬detail.2 + gap (s.last_placed_index + 1) ≤ maxBoxSize s.boxes →
      choose_strip gap detail s placed =
        cut_new_strip gap detail { s with stripe_first_detail_index := s.last_placed_index + 1 } placed) := by
  have hbest : ∀ b rest, s.boxes = b :: rest → ∀ b2 ∈ s.boxes, Detail.minSide b2 ≤ Detail.minSide b := by
    intro b rest hbx b2 hb2
    rw [hbx] at hb2 hsorted
    rcases List.mem_cons.mp hb2 with rfl | hb3
    · exact le_refl _
    · exact (List.pairwise_cons.mp hsorted).1 b2 hb3
  refine ⟨?_, ?_, ?_, ?_⟩
  · intro h
    rw [h]
    rfl
  · intro b hb
    cases hbx : s.boxes with
    | nil => rw [hbx] at hb; exact absurd hb (List.not_mem_nil _)
    | cons b0 rest =>
      simp only [maxBoxSize]
      exact hbest b0 rest hbx b hb
  · intro hpool
    cases hbx : s.boxes with
    | nil =>
      exfalso
      rw [hbx] at hpool
      simp only [maxBoxSize] at hpool
      linarith
    | cons b rest =>
      refine ⟨b, rest, rfl, fun b2 hb2 => hbest b rest hbx b2 (by rw [hbx]; exact hb2), ?_⟩
      rw [hbx] at hpool
      simp only [choose_strip, hstr, choose_strip_from_box, hbx]
      rw [if_pos hpool]
      rw [List.erase_cons_head]
  · intro hpool
    simp only [choose_strip, hstr]
    rw [if_neg hpool]


/-- Claim C8: two-color endpoint lineage.  An endpoint gets type `endpoint_1`
exactly when the stripe provenance is the LRP or a prior `endpoint_1`, and
`endpoint_2` otherwise; once the open stripe (or a re-acquired pool box) has type
`endpoint_2`, the next produced endpoint is again `endpoint_2`. -/
theorem c8_endpoint_lineage :
    (∀ s : GammaState, get_endpoint_type s = ENDPOINT_TYPE_1_NAME ↔
      (s.stripe_from = some LRP_NAME ∨ s.stripe_from = some ENDPOINT_TYPE_1_NAME)) ∧
    (∀ s : GammaState, get_endpoint_type s = ENDPOINT_TYPE_2_NAME ↔
      ¬(s.stripe_from = some LRP_NAME ∨ s.stripe_from = some ENDPOINT_TYPE_1_NAME)) ∧
    (∀ (gap : ℕ → ℚ) (detail : ℚ × ℚ) (s se : GammaState) (placed pe : List Detail),
      place_next gap detail s placed = .ok se pe →
      ∀ E, se.stripe = some E → E.detail_type = ENDPOINT_TYPE_2_NAME →
        get_endpoint_type se = ENDPOINT_TYPE_2_NAME) ∧
    (∀ s s2 : GammaState, choose_strip_from_box s = some s2 →
      ∀ b, s2.stripe = some b → b.detail_type = ENDPOINT_TYPE_2_NAME →
        get_endpoint_type s2 = ENDPOINT_TYPE_2_NAME) := by
  refine ⟨?_, ?_, ?_, ?_⟩
  · intro s
    unfold get_endpoint_type
    split
    case isTrue h => exact iff_of_true rfl h
    case isFalse h => exact iff_of_false (by decide) h
  · intro s
    unfold get_endpoint_type
    split
    case isTrue h => exact iff_of_false (by decide) (not_not_intro h)
    case isFalse h => exact iff_of_true rfl h
  · intro gap detail s se placed pe hok E hE htype
    cases hb : check_if_lrp_none s placed with
    | none =>
      simp only [place_next, hb] at hok
      exact StepResult.noConfusion hok
    | some s1 =>
      simp only [place_next, hb] at hok
      cases hc : choose_strip gap detail (check_stripe_size gap detail s1) placed with
      | crash =>
        simp only [hc] at hok
        exact StepResult.noConfusion hok
      | err s3 p3 =>
        simp only [hc] at hok
        exact StepResult.noConfusion hok
      | ok s3 p3 =>
        simp only [hc] at hok
        cases hp : place_detail_in_stripe detail s3 p3 with
        | none =>
          simp only [hp] at hok
          exact StepResult.noConfusion hok
        | some pair =>
          obtain ⟨s4, p4⟩ := pair
          simp only [hp] at hok
          injection hok with h4 h5
          subst h4
          subst h5
          obtain ⟨st, hst, hcase⟩ := place_detail_cases hp
          rcases hcase with ⟨_, S, B, E2, _, _, hE2, hs4, _⟩ | ⟨_, S, B, E2, _, _, hE2, hs4, _⟩ <;>
          · rw [hs4] at hE
            simp only at hE
            injection hE with hEX
            subst hEX
            rw [hE2] at htype
            simp only at htype
            have hsf : s4.stripe_from = s3.stripe_from := by rw [hs4]
            rw [get_endpoint_type_congr hsf]
            exact htype
  · intro s s2 hc b hb htype
    cases hbx : s.boxes with
    | nil =>
      simp only [choose_strip_from_box, hbx] at hc
      exact Option.noConfusion hc
    | cons b0 rest =>
      simp only [choose_strip_from_box, hbx] at hc
      cases hc
      simp only at hb
      injection hb with hb2
      subst hb2
      unfold get_endpoint_type
      simp only [htype]
      rw [if_neg (by decide)]

/-- Claim C10: a stripe closed by the capacity check enters the box pool as the
very same detail, with name, corners and (endpoint) type unchanged; a pool entry
later acquired as a stripe sets `stripe_from` to that entry type, and an
endpoint-typed provenance yields `normal_box_2` boxes while preserving the
endpoint color. -/
theorem c10_pool_provenance :
    (∀ (gap : ℕ → ℚ) (detail : ℚ × ℚ) (s : GammaState) (st : Detail),
      s.stripe = some st →
      ((s.is_stripe_horizontal = true ∧ detail.1 + gap s.stripe_first_detail_index > st.width) ∨
        (s.is_stripe_horizontal = false ∧ detail.1 + gap s.stripe_first_detail_index > st.height)) →
      check_stripe_size gap detail s = { s with boxes := insertBox st s.boxes, stripe := none, endpoints_placed := s.endpoints_placed + 1 } ∧
      st ∈ (check_stripe_size gap detail s).boxes) ∧
    (∀ (s s2 : GammaState) (b : Detail) (rest : List Detail),
      s.boxes = b :: rest → choose_strip_from_box s = some s2 →
      s2.stripe_from = some b.detail_type ∧ s2.stripe = some b) ∧
    (∀ s : GammaState, s.stripe_from = some ENDPOINT_TYPE_1_NAME →
      get_normal_box_type s = NORMAL_BOX_TYPE_2_NAME ∧
      get_endpoint_type s = ENDPOINT_TYPE_1_NAME) ∧
    (∀ s : GammaState, s.stripe_from = some ENDPOINT_TYPE_2_NAME →
      get_normal_box_type s = NORMAL_BOX_TYPE_2_NAME ∧
      get_endpoint_type s = ENDPOINT_TYPE_2_NAME) := by
  refine ⟨?_, ?_, ?_, ?_⟩
  · intro gap detail s st hst hc
    refine ⟨check_stripe_size_close hst hc, ?_⟩
    rw [check_stripe_size_close hst hc]
    simp only
    exact mem_insertBox.mpr (Or.inl rfl)
  · intro s s2 b rest hbx hc
    simp only [choose_strip_from_box, hbx] at hc
    cases hc
    exact ⟨rfl, rfl⟩
  · intro s h
    unfold get_normal_box_type get_endpoint_type
    rw [h]
    constructor
    · rw [if_neg (by decide)]
    · rw [if_pos (by decide)]
  · intro s h
    unfold get_normal_box_type get_endpoint_type
    rw [h]
    constructor
    · rw [if_neg (by decide)]
    · rw [if_neg (by decide)]


/-- Claim C1 (amended): starting from a single positive sheet, and provided every
placement fits strictly inside the stripe chosen for it and every LRP cut leaves
a remainder with positive sides (the `FitRun` proviso), after every sequence of
successful `place_next` calls with positive input sizes all pairs of distinct
details in `placed_details` have a rectangle intersection of zero area. -/
theorem c1_nonoverlap_amended :
    (∀ (n0 : ℕ) (sheet : Detail), posDims sheet → Inv (init n0 true) [sheet]) ∧
    (∀ (gap : ℕ → ℚ) (inputs : List (ℚ × ℚ)) (s : GammaState) (placed : List Detail)
        (se : GammaState) (pe : List Detail),
      (∀ i, 1 ≤ i → 0 < gap i) → (∀ d ∈ inputs, 0 < d.1 ∧ 0 < d.2) →
      Inv s placed → FitRun gap inputs s placed →
      runPlace gap inputs s placed = some (se, pe) →
      ∀ a ∈ pe, ∀ b ∈ pe, a ≠ b → interArea a b = 0) := by
  constructor
  · intro n0 sheet h
    exact init_inv h
  · intro gap inputs s placed se pe hg hpos hInv hfr hrun a ha b hb hab
    exact (run_inv hInv hfr hpos hg hrun).1.pairwise.forall interZero_symm ha hb hab

/-- Claim C9 (amended): under the same strict-fit proviso, every detail in
`placed_details` after any run of successful calls has positive width and height,
and the live engine pieces (LRP, open stripe, pool entries) are among them. -/
theorem c9_positivity_amended :
    (∀ (n0 : ℕ) (sheet : Detail), posDims sheet → Inv (init n0 true) [sheet]) ∧
    (∀ (gap : ℕ → ℚ) (inputs : List (ℚ × ℚ)) (s : GammaState) (placed : List Detail)
        (se : GammaState) (pe : List Detail),
      (∀ i, 1 ≤ i → 0 < gap i) → (∀ d ∈ inputs, 0 < d.1 ∧ 0 < d.2) →
      Inv s placed → FitRun gap inputs s placed →
      runPlace gap inputs s placed = some (se, pe) →
      (∀ d ∈ pe, 0 < d.width ∧ 0 < d.height) ∧
      (∀ st, se.stripe = some st → st ∈ pe) ∧
      (∀ l, se.lrp = some l → l ∈ pe) ∧
      (∀ b ∈ se.boxes, b ∈ pe)) := by
  constructor
  · intro n0 sheet h
    exact init_inv h
  · intro gap inputs s placed se pe hg hpos hInv hfr hrun
    obtain ⟨hI, _⟩ := run_inv hInv hfr hpos hg hrun
    exact ⟨hI.pos, hI.stripe_mem, hI.lrp_mem, hI.boxes_mem⟩

/-- Claim C2 (amended): the sum of signed areas of `placed_details` is exactly
conserved by every successful run satisfying the strict-fit proviso (so it always
equals the sheet area); every LRP cut splits the old LRP into the stripe and the
new LRP as an exact partition of half-open regions; and every placement whose
detail fits inside the stripe splits the stripe into the placed detail, normal
box and endpoint as an exact partition. -/
theorem c2_area_conservation_amended :
    (∀ (gap : ℕ → ℚ) (inputs : List (ℚ × ℚ)) (s : GammaState) (placed : List Detail)
        (se : GammaState) (pe : List Detail),
      (∀ i, 1 ≤ i → 0 < gap i) → (∀ d ∈ inputs, 0 < d.1 ∧ 0 < d.2) →
      Inv s placed → FitRun gap inputs s placed →
      runPlace gap inputs s placed = some (se, pe) →
      areaSum pe = areaSum placed) ∧
    (∀ (gap : ℕ → ℚ) (detail : ℚ × ℚ) (s s1 : GammaState) (placed p1 : List Detail)
        (l ST NL : Detail),
      s.lrp = some l → cut_new_strip gap detail s placed = .ok s1 p1 →
      s1.stripe = some ST → s1.lrp = some NL →
      0 < detail.2 → 0 ≤ gap (s.last_placed_index + 1) →
      PartitionTwo l ST NL) ∧
    (∀ (detail : ℚ × ℚ) (s s4 : GammaState) (placed p4 : List Detail) (st : Detail),
      s.stripe = some st → place_detail_in_stripe detail s placed = some (s4, p4) →
      0 < detail.1 → 0 < detail.2 →
      detail.1 ≤ stripeExtent s.is_stripe_horizontal st →
      detail.2 ≤ stripePerp s.is_stripe_horizontal st →
      ∃ S B E, s4.stripe = some E ∧
        (s.update_placed_details = true → p4 = placed.erase st ++ [S, B, E]) ∧
        PartitionThree st S B E) := by
  refine ⟨?_, ?_, ?_⟩
  · intro gap inputs s placed se pe hg hpos hInv hfr hrun
    exact (run_inv hInv hfr hpos hg hrun).2
  · intro gap detail s s1 placed p1 l ST NL hl hok hst hnl hd2 hg
    obtain ⟨l2, hl2, hf1, hf2, hcase⟩ := cut_new_strip_cases hok
    rw [hl] at hl2
    injection hl2 with hl3
    subst hl3
    rcases hcase with ⟨hwh, ST2, NL2, hST2, hNL2, hs1, hp1⟩ |
        ⟨hwh, ST2, NL2, hST2, hNL2, hs1, hp1⟩
    · have hstX : ST = ST2 := by
        rw [hs1] at hst
        simp only at hst
        injection hst with h2
        exact h2.symm
      have hnlX : NL = NL2 := by
        rw [hs1] at hnl
        simp only at hnl
        injection hnl with h2
        exact h2.symm
      subst hstX
      subst hnlX
      subst hST2
      subst hNL2
      rw [max_eq_right hwh] at hf1
      simp only [Detail.width, Detail.height] at hwh hf1
      constructor
      · ext p
        simp only [Set.mem_union, region, Set.mem_setOf_eq]
        constructor
        · intro h
          rcases h with ⟨hx1, hx2, hy1, hy2⟩ | ⟨hx1, hx2, hy1, hy2⟩
          · exact ⟨hx1, hx2, hy1, by linarith⟩
          · exact ⟨hx1, hx2, by linarith, hy2⟩
        · intro ⟨hx1, hx2, hy1, hy2⟩
          by_cases hy : p.2 < l.bottom_left.2 + detail.2 + gap (s.last_placed_index + 1)
          · exact Or.inl ⟨hx1, hx2, hy1, hy⟩
          · exact Or.inr ⟨hx1, hx2, le_of_not_lt hy, hy2⟩
      · apply Set.eq_empty_iff_forall_not_mem.mpr
        intro p ⟨h1, h2⟩
        simp only [region, Set.mem_setOf_eq] at h1 h2
        obtain ⟨_, _, _, hy2⟩ := h1
        obtain ⟨_, _, hy3, _⟩ := h2
        exact absurd hy3 (not_le.mpr hy2)
    · have hstX : ST = ST2 := by
        rw [hs1] at hst
        simp only at hst
        injection hst with h2
        exact h2.symm
      have hnlX : NL = NL2 := by
        rw [hs1] at hnl
        simp only at hnl
        injection hnl with h2
        exact h2.symm
      subst hstX
      subst hnlX
      subst hST2
      subst hNL2
      rw [max_eq_left (le_of_not_le hwh)] at hf1
      simp only [Detail.width, Detail.height] at hwh hf1
      constructor
      · ext p
        simp only [Set.mem_union, region, Set.mem_setOf_eq]
        constructor
        · intro h
          rcases h with ⟨hx1, hx2, hy1, hy2⟩ | ⟨hx1, hx2, hy1, hy2⟩
          · exact ⟨by linarith, hx2, hy1, hy2⟩
          · exact ⟨hx1, by linarith, hy1, hy2⟩
        · intro ⟨hx1, hx2, hy1, hy2⟩
          by_cases hx : p.1 < l.top_right.1 - detail.2 - gap (s.last_placed_index + 1)
          · exact Or.inr ⟨hx1, hx, hy1, hy2⟩
          · exact Or.inl ⟨le_of_not_lt hx, hx2, hy1, hy2⟩
      · apply Set.eq_empty_iff_forall_not_mem.mpr
        intro p ⟨h1, h2⟩
        simp only [region, Set.mem_setOf_eq] at h1 h2
        obtain ⟨hx1, _, _, _⟩ := h1
        obtain ⟨_, hx2, _, _⟩ := h2
        exact absurd hx1 (not_le.mpr hx2)
  · intro detail s s4 placed p4 st hst hok hd1 hd2 hfit1 hfit2
    obtain ⟨st2, hst2, hcase⟩ := place_detail_cases hok
    rw [hst] at hst2
    injection hst2 with hstX
    subst hstX
    rcases hcase with ⟨hhz, S, B, E, hS, hB, hE, hs4, hp4⟩ |
        ⟨hhz, S, B, E, hS, hB, hE, hs4, hp4⟩
    · refine ⟨S, B, E, by rw [hs4], ?_, ?_⟩
      · intro hupd
        simp only [hp4, hupd, if_true]
      · rw [hhz] at hfit1 hfit2
        simp only [stripeExtent, if_true] at hfit1
        simp only [stripePerp, if_true] at hfit2
        unfold Detail.width at hfit1
        unfold Detail.height at hfit2
        subst hS
        subst hB
        subst hE
        refine ⟨?_, ?_, ?_, ?_⟩
        · ext p
          simp only [Set.mem_union, region, Set.mem_setOf_eq]
          constructor
          · intro h
            rcases h with (⟨hx1, hx2, hy1, hy2⟩ | ⟨hx1, hx2, hy1, hy2⟩) | ⟨hx1, hx2, hy1, hy2⟩
            · exact ⟨hx1, by linarith, hy1, by linarith⟩
            · exact ⟨hx1, by linarith, by linarith, hy2⟩
            · exact ⟨by linarith, hx2, hy1, hy2⟩
          · intro ⟨hx1, hx2, hy1, hy2⟩
            by_cases hx : p.1 < st.bottom_left.1 + detail.1
            · by_cases hy : p.2 < st.bottom_left.2 + detail.2
              · exact Or.inl (Or.inl ⟨hx1, hx, hy1, hy⟩)
              · exact Or.inl (Or.inr ⟨hx1, hx, le_of_not_lt hy, hy2⟩)
            · exact Or.inr ⟨le_of_not_lt hx, hx2, hy1, hy2⟩
        · apply Set.eq_empty_iff_forall_not_mem.mpr
          intro p ⟨h1, h2⟩
          simp only [region, Set.mem_setOf_eq] at h1 h2
          obtain ⟨_, _, _, hy2⟩ := h1
          obtain ⟨_, _, hy3, _⟩ := h2
          exact absurd hy3 (not_le.mpr hy2)
        · apply Set.eq_empty_iff_forall_not_mem.mpr
          intro p ⟨h1, h2⟩
          simp only [region, Set.mem_setOf_eq] at h1 h2
          obtain ⟨_, hx2, _, _⟩ := h1
          obtain ⟨hx3, _, _, _⟩ := h2
          exact absurd hx3 (not_le.mpr hx2)
        · apply Set.eq_empty_iff_forall_not_mem.mpr
          intro p ⟨h1, h2⟩
          simp only [region, Set.mem_setOf_eq] at h1 h2
          obtain ⟨_, hx2, _, _⟩ := h1
          obtain ⟨hx3, _, _, _⟩ := h2
          exact absurd hx3 (not_le.mpr hx2)
    · refine ⟨S, B, E, by rw [hs4], ?_, ?_⟩
      · intro hupd
        simp only [hp4, hupd, if_true]
      · rw [hhz] at hfit1 hfit2
        simp only [stripeExtent, Bool.false_eq_true, if_false] at hfit1
        simp only [stripePerp, Bool.false_eq_true, if_false] at hfit2
        unfold Detail.height at hfit1
        unfold Detail.width at hfit2
        subst hS
        subst hB
        subst hE
        refine ⟨?_, ?_, ?_, ?_⟩
        · ext p
          simp only [Set.mem_union, region, Set.mem_setOf_eq]
          constructor
          · intro h
            rcases h with (⟨hx1, hx2, hy1, hy2⟩ | ⟨hx1, hx2, hy1, hy2⟩) | ⟨hx1, hx2, hy1, hy2⟩
            · exact ⟨by linarith, hx2, hy1, by linarith⟩
            · exact ⟨hx1, by linarith, hy1, by linarith⟩
            · exact ⟨hx1, hx2, by linarith, hy2⟩
          · intro ⟨hx1, hx2, hy1, hy2⟩
            by_cases hy : p.2 < st.bottom_left.2 + detail.1
            · by_cases hx : p.1 < st.top_right.1 - detail.2
              · exact Or.inl (Or.inr ⟨hx1, hx, hy1, hy⟩)
              · exact Or.inl (Or.inl ⟨le_of_not_lt hx, hx2, hy1, hy⟩)
            · exact Or.inr ⟨hx1, hx2, le_of_not_lt hy, hy2⟩
        · apply Set.eq_empty_iff_forall_not_mem.mpr
          intro p ⟨h1, h2⟩
          simp only [region, Set.mem_setOf_eq] at h1 h2
          obtain ⟨hx1, _, _, _⟩ := h1
          obtain ⟨_, hx2, _, _⟩ := h2
          exact absurd hx1 (not_le.mpr hx2)
        · apply Set.eq_empty_iff_forall_not_mem.mpr
          intro p ⟨h1, h2⟩
          simp only [region, Set.mem_setOf_eq] at h1 h2
          obtain ⟨_, _, _, hy2⟩ := h1
          obtain ⟨_, _, hy3, _⟩ := h2
          exact absurd hy3 (not_le.mpr hy2)
        · apply Set.eq_empty_iff_forall_not_mem.mpr
          intro p ⟨h1, h2⟩
          simp only [region, Set.mem_setOf_eq] at h1 h2
          obtain ⟨_, _, _, hy2⟩ := h1
          obtain ⟨_, _, hy3, _⟩ := h2
          exact absurd hy3 (not_le.mpr hy2)

/-! ### Concrete evaluation lemmas for the runs above -/

/-- The gamma = 1 gap sequence is positive from index 1 on. -/
theorem g1_pos : ∀ i, 1 ≤ i → 0 < g1 i := by
  intro i hi
  unfold g1
  have h0 : (0 : ℚ) < (i : ℚ) := by
    exact_mod_cast Nat.lt_of_lt_of_le Nat.zero_lt_one hi
  exact one_div_pos.mpr h0

unseal Rat.sub in
/-- The 10 by 10 sheet has positive sides. -/
theorem sheet0_posDims : posDims sheet0 := ⟨by decide, by decide⟩

set_option maxRecDepth 4000 in
unseal Rat.add Rat.sub Rat.mul Rat.inv in
/-- The single input (2, 1) has positive sides. -/
theorem inputs1_pos : ∀ d ∈ [((2 : ℚ), (1 : ℚ))], 0 < d.1 ∧ 0 < d.2 := by decide

set_option maxRecDepth 4000 in
unseal Rat.add Rat.sub Rat.mul Rat.inv in
/-- Phase 3 of call 1 cuts stripe `Ep1a` from the sheet. -/
theorem afterChoose1_eq : afterChoose g1 (2, 1) (init 1 true) [sheet0] = .ok cutOut cutP := by
  decide

set_option maxRecDepth 4000 in
unseal Rat.add Rat.sub Rat.mul Rat.inv in
/-- Call 1 on the 10 by 10 sheet succeeds with the listed results. -/
theorem run1_eq : runPlace g1 [(2, 1)] (init 1 true) [sheet0] = some (st1, p1L) := by
  decide

unseal Rat.add Rat.sub Rat.mul Rat.inv in
/-- The one-call run from the sheet satisfies the strict-fit proviso. -/
theorem fitRun1 : FitRun g1 [(2, 1)] (init 1 true) [sheet0] := by
  refine ⟨?_, ?_, ?_⟩
  · intro s3 p3 st h hst
    rw [afterChoose1_eq] at h
    injection h with h1 h2
    subst h1
    have hst2 : some Ep1a = some st := hst
    injection hst2 with h3
    subst h3
    exact ⟨by decide, by decide⟩
  · intro s3 p3 l h hl
    rw [afterChoose1_eq] at h
    injection h with h1 h2
    subst h1
    have hl2 : some LRPp = some l := hl
    injection hl2 with h3
    subst h3
    exact ⟨by decide, by decide⟩
  · intro s' p' h
    trivial

/-! ### Per-claim witnesses and counterexamples -/

unseal Rat.add Rat.sub Rat.mul Rat.inv in
/-- Witness for C3: a (1/2, 1/2) detail on a 1/100 by 1/100 sheet raises the
packing-infeasible error. -/
theorem c3_witness : isErr (place_next g1 (1/2, 1/2) (init 1 true) [tinySheet]) = true := by
  have h := @c3_error_iff g1 (1/2, 1/2) (init 1 true) tinyBoot tinyBoot [tinySheet]
    (by decide) (by decide) (by decide) (by decide) g1_pos
  refine h.1.mpr ⟨by decide, by decide, fun l hl => ?_⟩
  have hl2 : some tinySheet = some l := hl
  injection hl2 with h3
  subst h3
  decide

set_option maxRecDepth 4000 in
unseal Rat.add Rat.sub Rat.mul Rat.inv in
/-- Witness for C4: the call-2 placement of (4, 11/10) into stripe `Ep1b`. -/
theorem c4_witness : place_detail_in_stripe (4, 11/10) st1 p1L = some (st2, p2L) := by
  have h := (@c4_placement_arithmetic (4, 11/10) st1 p1L Ep1b rfl).1 rfl
  rw [h]
  decide

unseal Rat.add Rat.sub Rat.mul Rat.inv in
/-- Witness for C5: the first cut from the 10 by 10 sheet is horizontal and the
new LRP is the complement of the stripe. -/
theorem c5_witness : (cutOut.is_stripe_horizontal = true ↔ sheet0.width ≤ sheet0.height) ∧ region LRPp = region sheet0 \ region Ep1a := by
  have h := @c5_cut_geometry g1 (2, 1) cutIn cutOut [sheet0] cutP sheet0 Ep1a LRPp
    rfl (by decide) rfl rfl (by decide) (by decide)
  exact ⟨h.1, h.2.2.2⟩

unseal Rat.add Rat.sub Rat.mul Rat.inv in
/-- Witness for C6: call 2's capacity check keeps the open stripe, since
4 + g1 1 = 5 does not exceed the stripe width 8. -/
theorem c6_witness : check_stripe_size g1 (4, 11/10) st1 = st1 :=
  (@c6_capacity_check g1 (4, 11/10) st1 Ep1b rfl).2.mpr (by decide)

unseal Rat.add Rat.sub Rat.mul Rat.inv in
/-- Witness for C7: call 4 pops pool box `B1c` (the entry of largest min side)
as the new stripe. -/
theorem c7_witness : choose_strip g1 (5, 1/2) stPool p3L = .ok stChosen p3L := by
  obtain ⟨b, rest, hbx, hmax, hc⟩ :=
    (@c7_stripe_acquisition g1 (5, 1/2) stPool p3L rfl (by decide) (by decide) (by decide)).2.2.1
      (by decide)
  have hbx2 : B1c :: [B2c, B3c, Ep2c] = b :: rest := hbx
  injection hbx2 with h1 h2
  subst h1
  subst h2
  rw [hc]
  decide

unseal Rat.add Rat.sub Rat.mul Rat.inv in
/-- Witness for C8: a stripe acquired from a normal box yields endpoint type 2. -/
theorem c8_witness : get_endpoint_type stChosen = ENDPOINT_TYPE_2_NAME :=
  (c8_endpoint_lineage.2.1 stChosen).mpr (by decide)

unseal Rat.add Rat.sub Rat.mul Rat.inv in
/-- Witness for C10: call 4's closed stripe `Ep2c` enters the pool unchanged. -/
theorem c10_witness : check_stripe_size g1 (5, 1/2) st3 = { st3 with boxes := insertBox Ep2c st3.boxes, stripe := none, endpoints_placed := st3.endpoints_placed + 1 } ∧ Ep2c ∈ (check_stripe_size g1 (5, 1/2) st3).boxes :=
  c10_pool_provenance.1 g1 (5, 1/2) st3 Ep2c rfl (by decide)

unseal Rat.add Rat.sub Rat.mul Rat.inv in
/-- Witness for C1 (amended): after the one-call run, the placed detail and its
normal box (distinct members of the final list) have zero intersection area. -/
theorem c1_witness : interArea S1c B1c = 0 := by
  have h := c1_nonoverlap_amended.2 g1 [(2, 1)] (init 1 true) [sheet0] st1 p1L
    g1_pos inputs1_pos (c1_nonoverlap_amended.1 1 sheet0 sheet0_posDims) fitRun1 run1_eq
  exact h S1c (by decide) B1c (by decide) (by decide)

unseal Rat.add Rat.sub Rat.mul Rat.inv in
/-- Witness for C9 (amended): after the one-call run every listed detail has
positive sides and every pool box is listed. -/
theorem c9_witness : (∀ d ∈ p1L, 0 < d.width ∧ 0 < d.height) ∧ (∀ b ∈ st1.boxes, b ∈ p1L) := by
  have h := c9_positivity_amended.2 g1 [(2, 1)] (init 1 true) [sheet0] st1 p1L
    g1_pos inputs1_pos (c9_positivity_amended.1 1 sheet0 sheet0_posDims) fitRun1 run1_eq
  exact ⟨h.1, h.2.2.2⟩

unseal Rat.add Rat.sub Rat.mul Rat.inv in
/-- Witness for C2 (amended): the one-call run conserves the total area. -/
theorem c2_witness : areaSum p1L = areaSum [sheet0] :=
  c2_area_conservation_amended.1 g1 [(2, 1)] (init 1 true) [sheet0] st1 p1L
    g1_pos inputs1_pos (init_inv sheet0_posDims) fitRun1 run1_eq

set_option maxRecDepth 8000 in
unseal Rat.add Rat.sub Rat.mul Rat.inv in
/-- Counterexample to C1 as stated: the four-call run at gamma = 1 succeeds,
yet placed details S4 and S2 intersect with area 3/10. -/
theorem c1_counterexample : runPlace g1 [(2, 1), (4, 11/10), (18/5, 3/2), (5, 1/2)] (init 1 true) [sheet0] = some (st4, p4L) ∧ S4c ∈ p4L ∧ S2c ∈ p4L ∧ S4c ≠ S2c ∧ interArea S4c S2c = 3/10 := by
  decide

set_option maxRecDepth 8000 in
unseal Rat.add Rat.sub Rat.mul Rat.inv in
/-- Counterexample to C9 as stated: the same four-call run produces the
endpoint Ep3 with width -3, stored both as the open stripe and in the list. -/
theorem c9_counterexample : runPlace g1 [(2, 1), (4, 11/10), (18/5, 3/2), (5, 1/2)] (init 1 true) [sheet0] = some (st4, p4L) ∧ Ep3c ∈ p4L ∧ st4.stripe = some Ep3c ∧ Ep3c.width < 0 := by
  decide

set_option maxRecDepth 8000 in
unseal Rat.add Rat.sub Rat.mul Rat.inv in
/-- Counterexample to the placement-partition conjunct of C2 as stated: call 4
places (5, 1/2) into the pool stripe B1 of width 2 without any width check, and
the resulting detail, normal box and endpoint do not partition B1. -/
theorem c2_counterexample : runPlace g1 [(2, 1), (4, 11/10), (18/5, 3/2)] (init 1 true) [sheet0] = some (st3, p3L) ∧ afterChoose g1 (5, 1/2) st3 p3L = .ok stChosen p3L ∧ stChosen.stripe = some B1c ∧ place_detail_in_stripe (5, 1/2) stChosen p3L = some (st4, p4L) ∧ ¬ PartitionThree B1c S4c B4c Ep3c := by
  refine ⟨by decide, by decide, rfl, by decide, ?_⟩
  intro hpart
  have h1 : ((3 : ℚ), (5/4 : ℚ)) ∈ region S4c := by
    simp only [region, S4c, Set.mem_setOf_eq]
    norm_num
  have h2 : ((3 : ℚ), (5/4 : ℚ)) ∈ region B1c := by
    rw [← hpart.1]
    exact Set.mem_union_left _ (Set.mem_union_left _ h1)
  simp only [region, B1c, Set.mem_setOf_eq] at h2
  norm_num at h2

end MoserGamma
